import Mathlib

/-!
Verification development for the cagen-quota hierarchical capacity ledger.

The definitions below are a shallow embedding of the Go source:
`internal/services` (quota service operations), `internal/models` (data
model and constants) and the SQL schema in `internal/database`.  The
ledger is modelled as the list of rows of the `quotas` table, the usage
journal and audit trail as append-only lists.  SQL row ids generated
with uuids are passed in as explicit arguments (`quotaID`,
`childQuotaID`); timestamps are abstracted away (a stamped `deleted_at`
is modelled as `some ()`).  Machine integers (`int64`) are modelled as
`Int`; the quantities involved are far from the overflow range and no
operation relies on wrap-around.  External collaborators (the
authorization oracle) and the fallibility of the journal/audit INSERT
statements are modelled by an explicit environment `Env`.
-/

namespace CagenQuota

/-- Constant from `internal/models/quota.go`: quota type `organization`. -/
def QuotaTypeOrganization : String := "organization"

/-- Constant from `internal/models/quota.go`: quota type `team`. -/
def QuotaTypeTeam : String := "team"

/-- Constant from `internal/models/quota.go`: status `active`. -/
def QuotaStatusActive : String := "active"

/-- Constant from `internal/models/quota.go`: status `suspended`. -/
def QuotaStatusSuspended : String := "suspended"

/-- Constant from `internal/models/quota.go`: status `deleted`. -/
def QuotaStatusDeleted : String := "deleted"

/-- Constant from `internal/models/quota.go`: usage operation `allocate`. -/
def OperationAllocate : String := "allocate"

/-- Constant from `internal/models/quota.go`: usage operation `deallocate`. -/
def OperationDeallocate : String := "deallocate"

/-- Constant from `internal/auth`: the `read` capability. -/
def QuotaPermissionRead : String := "read"

/-- Constant from `internal/auth`: the `admin` capability. -/
def QuotaPermissionAdmin : String := "admin"

/-- The `models.Quota` struct: one row of the `quotas` table.  The Go
struct field `AvailableMB` is a plain struct field (zero-valued unless a
code path assigns it); `CreatedAt`/`UpdatedAt` timestamps are omitted and
`DeletedAt *time.Time` is abstracted to `Option Unit` (stamped or not). -/
structure Quota where
  id : String
  name : String
  description : String
  type : String
  totalMB : Int
  usedMB : Int
  allocatedMB : Int
  availableMB : Int
  parentQuotaID : Option String
  level : Int
  path : String
  ownerID : String
  organizationID : String
  teamID : Option String
  status : String
  deletedAt : Option Unit
deriving DecidableEq, Repr

/-- The `auth.UserInfo` actor identity resolved from the credential. -/
structure UserInfo where
  userID : String
  organizationID : String
  teamIDs : List String
deriving DecidableEq, Repr

/-- The `models.QuotaCreateRequest` (transport-only fields omitted). -/
structure QuotaCreateRequest where
  name : String
  description : String
  type : String
  totalMB : Int
  teamID : Option String
deriving DecidableEq, Repr

/-- The `models.QuotaAllocateRequest` (transport-only fields omitted). -/
structure QuotaAllocateRequest where
  name : String
  description : String
  allocateMB : Int
  type : String
  targetID : String
  adminUserIDs : List String
deriving DecidableEq, Repr

/-- The `models.QuotaUsageRequest` (transport-only fields omitted). -/
structure QuotaUsageRequest where
  resourceID : String
  usageMB : Int
  reason : String
deriving DecidableEq, Repr

/-- One row of the `quota_usage` journal table (the uuid row id and the
timestamp are omitted; they are never read back by the service). -/
structure QuotaUsageRecord where
  quotaID : String
  userID : String
  resourceID : String
  usageMB : Int
  operation : String
  reason : String
deriving DecidableEq, Repr

/-- One row of the `quota_audit_logs` table (uuid row id and timestamp
omitted; the JSONB details payload is rendered as key/value pairs). -/
structure QuotaAuditLog where
  quotaID : String
  actionType : String
  actorUserID : String
  targetUserID : Option String
  details : List (String × String)
deriving DecidableEq, Repr

/-- The persistent database state: the `quotas` table plus the two
append-only tables. -/
structure DBState where
  quotas : List Quota
  usage : List QuotaUsageRecord
  auditLogs : List QuotaAuditLog
deriving DecidableEq, Repr

/-- Error taxonomy.  The Go service returns `fmt.Errorf` values; each
constructor corresponds to one family of error sites in
`internal/services` (the carried strings are the source's messages). -/
inductive QuotaError where
  | validation (msg : String)
  | permissionDenied (msg : String)
  | notFound
  | insufficientCapacity (available requested : Int)
  | hierarchyViolation (msg : String)
  | busyResource (used allocated : Int)
  | upstream (msg : String)
  | storage (msg : String)
deriving DecidableEq, Repr

/-- External environment of one service call: the authorization oracle
(`AuthClient.CheckPermission` returning `none` for a transport error,
`some b` for a boolean decision; `CreateResource` and `GrantPermission`
as success predicates) together with the fallibility of the journal and
audit INSERT statements inside the transaction. -/
structure Env where
  checkPermission : UserInfo → String → List String → Option Bool
  createResourceOk : String → Bool
  grantPermissionOk : String → String → Bool
  auditInsertOk : Bool
  usageInsertOk : Bool

/-- Compute the derived headroom, as every read path does:
`available_mb = total_mb - used_mb - allocated_mb`. -/
def withAvailable (q : Quota) : Quota :=
  { q with availableMB := q.totalMB - q.usedMB - q.allocatedMB }

/-- The row filter of every point lookup: `id = $1 AND status !=
'deleted'`. -/
def predNotDeleted (quotaID : String) (q : Quota) : Bool :=
  q.id == quotaID && !(q.status == QuotaStatusDeleted)

/-- The shared row query `SELECT ... FROM quotas WHERE id = $1 AND
status != 'deleted'` used by `GetQuota` and `getQuotaForUpdateTx`. -/
def queryQuotaNotDeleted (quotas : List Quota) (quotaID : String) : Option Quota :=
  (quotas.find? (predNotDeleted quotaID)).map withAvailable

/-- Embedding of `getQuotaForUpdateTx`: the same query with `FOR UPDATE`
(the exclusive row lock is what serializes conflicting transactions; in
this sequential embedding it is the same lookup). -/
def getQuotaForUpdateTx (quotas : List Quota) (quotaID : String) : Option Quota :=
  queryQuotaNotDeleted quotas quotaID

/-- Embedding of `UPDATE quotas SET ... WHERE id = $2`: apply `f` to
every row whose id matches (by the primary key there is at most one). -/
def updateQuotas (quotas : List Quota) (quotaID : String) (f : Quota → Quota) : List Quota :=
  quotas.map (fun q => if q.id == quotaID then f q else q)

/-- Embedding of `createAuditLogTx` together with its call sites: every
caller logs a failed audit INSERT with a warning and continues, so on
failure (`auditInsertOk = false`) the state is unchanged and the
transaction still commits. -/
def appendAudit (env : Env) (db : DBState) (quotaID actionType actorUserID : String)
    (targetUserID : Option String) (details : List (String × String)) : DBState :=
  if env.auditInsertOk then
    { db with auditLogs := db.auditLogs ++
        [{ quotaID := quotaID, actionType := actionType, actorUserID := actorUserID,
           targetUserID := targetUserID, details := details }] }
  else db

/-- The root quota row constructed by `CreateQuota` (note that the Go
code never assigns `AvailableMB`, which therefore keeps its zero
value). -/
def createRootQuota (userInfo : UserInfo) (request : QuotaCreateRequest)
    (quotaID : String) : Quota :=
  { id := quotaID, name := request.name, description := request.description,
    type := request.type, totalMB := request.totalMB, usedMB := 0, allocatedMB := 0,
    availableMB := 0, parentQuotaID := none, level := 0, path := "/" ++ quotaID,
    ownerID := userInfo.userID, organizationID := userInfo.organizationID,
    teamID := request.teamID, status := QuotaStatusActive, deletedAt := none }

/-- Embedding of `QuotaService.CreateQuota` (CreateRoot).  The auth
service resource creation on this path is commented out in the source
("disabled for now"), and no capability check is performed. -/
def CreateQuota (env : Env) (userInfo : UserInfo) (request : QuotaCreateRequest)
    (quotaID : String) (db : DBState) : Except QuotaError (DBState × Quota) :=
  if request.totalMB ≤ 0 then
    .error (.validation "total_mb must be greater than 0")
  else if request.type ≠ QuotaTypeOrganization ∧ request.type ≠ QuotaTypeTeam then
    .error (.validation "invalid quota type")
  else if request.type = QuotaTypeTeam ∧ (request.teamID = none ∨ request.teamID = some "") then
    .error (.validation "team_id is required for team quota")
  else
    let quota := createRootQuota userInfo request quotaID
    let db1 : DBState := { db with quotas := db.quotas ++ [quota] }
    let db2 := appendAudit env db1 quotaID "create" userInfo.userID none
      [("name", quota.name), ("type", quota.type), ("total_mb", toString quota.totalMB)]
    .ok (db2, quota)

/-- Embedding of `validateAllocationRules`: `none` means the hierarchy
rule accepts the allocation; `some msg` is the returned error message. -/
def validateAllocationRules (parentQuota : Quota) (request : QuotaAllocateRequest) :
    Option String :=
  if parentQuota.type = QuotaTypeOrganization ∧ request.type = QuotaTypeTeam then
    none
  else if parentQuota.type = QuotaTypeOrganization ∧ request.type = QuotaTypeOrganization then
    none
  else if parentQuota.type = QuotaTypeTeam ∧ request.type = QuotaTypeTeam then
    match parentQuota.teamID with
    | none => some "team quota can only allocate to the same team"
    | some tid =>
      if request.targetID ≠ tid then some "team quota can only allocate to the same team"
      else none
  else
    some ("invalid allocation: " ++ parentQuota.type ++ " quota cannot allocate to "
      ++ request.type ++ " quota")

/-- Embedding of `determineTeamID`. -/
def determineTeamID (parentQuota : Quota) (request : QuotaAllocateRequest) : Option String :=
  if request.type = QuotaTypeTeam then some request.targetID else parentQuota.teamID

/-- The child quota row constructed by `AllocateQuota` (again the Go
code never assigns `AvailableMB`). -/
def allocChildQuota (parentQuota : Quota) (parentQuotaID : String)
    (request : QuotaAllocateRequest) (childQuotaID : String) : Quota :=
  { id := childQuotaID, name := request.name, description := request.description,
    type := request.type, totalMB := request.allocateMB, usedMB := 0, allocatedMB := 0,
    availableMB := 0, parentQuotaID := some parentQuotaID,
    level := parentQuota.level + 1, path := parentQuota.path ++ "/" ++ childQuotaID,
    ownerID := parentQuota.ownerID, organizationID := parentQuota.organizationID,
    teamID := determineTeamID parentQuota request,
    status := QuotaStatusActive, deletedAt := none }

/-- The `quotas` table after a successful allocation: the child row is
inserted and the parent's `allocated_mb` is incremented. -/
def allocQuotasAfter (quotas : List Quota) (parentQuota : Quota) (parentQuotaID : String)
    (request : QuotaAllocateRequest) (childQuotaID : String) : List Quota :=
  updateQuotas (quotas ++ [allocChildQuota parentQuota parentQuotaID request childQuotaID])
    parentQuotaID (fun q => { q with allocatedMB := q.allocatedMB + request.allocateMB })

/-- Embedding of `QuotaService.AllocateQuota`.  The whole body after the
capability check runs inside `WithTransaction`; an error return from any
step (including the auth-service `CreateResource` call, step 6 of the
source) rolls the transaction back, which the embedding renders by
returning an error and no successor state.  The `GrantPermission` loop
(step 7) only logs failures, so it does not influence the result. -/
def AllocateQuota (env : Env) (userInfo : UserInfo) (parentQuotaID : String)
    (request : QuotaAllocateRequest) (childQuotaID : String) (db : DBState) :
    Except QuotaError (DBState × Quota) :=
  match env.checkPermission userInfo parentQuotaID [QuotaPermissionAdmin] with
  | none => .error (.upstream "failed to check permissions")
  | some false => .error (.permissionDenied "insufficient permissions to allocate quota")
  | some true =>
    if request.allocateMB ≤ 0 then
      .error (.validation "allocate_mb must be greater than 0")
    else
      match getQuotaForUpdateTx db.quotas parentQuotaID with
      | none => .error .notFound
      | some parentQuota =>
        if parentQuota.availableMB < request.allocateMB then
          .error (.insufficientCapacity parentQuota.availableMB request.allocateMB)
        else
          match validateAllocationRules parentQuota request with
          | some msg => .error (.hierarchyViolation msg)
          | none =>
            let childQuota := allocChildQuota parentQuota parentQuotaID request childQuotaID
            let quotas2 := allocQuotasAfter db.quotas parentQuota parentQuotaID request
              childQuotaID
            if !(env.createResourceOk childQuotaID) then
              .error (.upstream "failed to create child quota resource in auth service")
            else
              let db1 : DBState := { db with quotas := quotas2 }
              let db2 := appendAudit env db1 childQuotaID "allocate" userInfo.userID none
                [("parent_quota_id", parentQuotaID),
                 ("allocated_mb", toString request.allocateMB),
                 ("name", childQuota.name), ("type", childQuota.type)]
              .ok (db2, childQuota)

/-- The `quotas` table after a successful release: the parent's
`allocated_mb` is decremented (when a parent exists) and the node is
soft-deleted with `deleted_at` stamped. -/
def releaseQuotasAfter (quotas : List Quota) (quota : Quota) (quotaID : String) :
    List Quota :=
  let quotas1 := match quota.parentQuotaID with
    | some pid =>
      updateQuotas quotas pid (fun q => { q with allocatedMB := q.allocatedMB - quota.totalMB })
    | none => quotas
  updateQuotas quotas1 quotaID
    (fun q => { q with status := QuotaStatusDeleted, deletedAt := some () })

/-- Embedding of `QuotaService.ReleaseQuota`. -/
def ReleaseQuota (env : Env) (userInfo : UserInfo) (quotaID : String) (db : DBState) :
    Except QuotaError DBState :=
  match env.checkPermission userInfo quotaID [QuotaPermissionAdmin] with
  | none => .error (.upstream "failed to check permissions")
  | some false => .error (.permissionDenied "insufficient permissions to release quota")
  | some true =>
    match getQuotaForUpdateTx db.quotas quotaID with
    | none => .error .notFound
    | some quota =>
      if 0 < quota.usedMB ∨ 0 < quota.allocatedMB then
        .error (.busyResource quota.usedMB quota.allocatedMB)
      else
        let db1 : DBState := { db with quotas := releaseQuotasAfter db.quotas quota quotaID }
        let db2 := appendAudit env db1 quotaID "release" userInfo.userID none
          [("parent_quota_id", quota.parentQuotaID.getD "null"),
           ("returned_mb", toString quota.totalMB)]
        .ok db2

/-- Embedding of `QuotaService.AllocateUsage`. -/
def AllocateUsage (env : Env) (userInfo : UserInfo) (quotaID : String)
    (request : QuotaUsageRequest) (db : DBState) : Except QuotaError DBState :=
  match env.checkPermission userInfo quotaID [QuotaPermissionRead] with
  | none => .error (.upstream "failed to check permissions")
  | some false => .error (.permissionDenied "insufficient permissions to use quota")
  | some true =>
    match getQuotaForUpdateTx db.quotas quotaID with
    | none => .error .notFound
    | some quota =>
      let availableForUsage := quota.totalMB - quota.usedMB - quota.allocatedMB
      if availableForUsage < request.usageMB then
        .error (.insufficientCapacity availableForUsage request.usageMB)
      else
        let quotas1 := updateQuotas db.quotas quotaID
          (fun q => { q with usedMB := q.usedMB + request.usageMB })
        if !env.usageInsertOk then
          .error (.storage "failed to record usage")
        else
          let rec0 : QuotaUsageRecord :=
            { quotaID := quotaID, userID := userInfo.userID,
              resourceID := request.resourceID, usageMB := request.usageMB,
              operation := OperationAllocate, reason := request.reason }
          let db1 : DBState :=
            { db with quotas := quotas1, usage := db.usage ++ [rec0] }
          let db2 := appendAudit env db1 quotaID "usage_allocate" userInfo.userID none
            [("resource_id", request.resourceID), ("usage_mb", toString request.usageMB),
             ("reason", request.reason)]
          .ok db2

/-- Embedding of `QuotaService.DeallocateUsage`. -/
def DeallocateUsage (env : Env) (userInfo : UserInfo) (quotaID : String)
    (request : QuotaUsageRequest) (db : DBState) : Except QuotaError DBState :=
  match env.checkPermission userInfo quotaID [QuotaPermissionRead] with
  | none => .error (.upstream "failed to check permissions")
  | some false =>
    .error (.permissionDenied "insufficient permissions to deallocate quota usage")
  | some true =>
    match getQuotaForUpdateTx db.quotas quotaID with
    | none => .error .notFound
    | some quota =>
      if quota.usedMB < request.usageMB then
        .error (.validation "cannot deallocate more than is in use")
      else
        let quotas1 := updateQuotas db.quotas quotaID
          (fun q => { q with usedMB := q.usedMB - request.usageMB })
        if !env.usageInsertOk then
          .error (.storage "failed to record usage")
        else
          let rec0 : QuotaUsageRecord :=
            { quotaID := quotaID, userID := userInfo.userID,
              resourceID := request.resourceID, usageMB := request.usageMB,
              operation := OperationDeallocate, reason := request.reason }
          let db1 : DBState :=
            { db with quotas := quotas1, usage := db.usage ++ [rec0] }
          let db2 := appendAudit env db1 quotaID "usage_deallocate" userInfo.userID none
            [("resource_id", request.resourceID), ("usage_mb", toString request.usageMB),
             ("reason", request.reason)]
          .ok db2

/-- Embedding of `QuotaService.GetQuota` (GetNode): a read-only lookup
excluding soft-deleted rows, returning the node with derived
`available_mb`. -/
def GetQuota (env : Env) (userInfo : UserInfo) (quotaID : String) (db : DBState) :
    Except QuotaError Quota :=
  match env.checkPermission userInfo quotaID [QuotaPermissionRead] with
  | none => .error (.upstream "failed to check permissions")
  | some false => .error (.permissionDenied "insufficient permissions to view quota")
  | some true =>
    match queryQuotaNotDeleted db.quotas quotaID with
    | none => .error .notFound
    | some quota => .ok quota

/-! ## Ledger invariants

The capacity invariants claimed by the specification, together with the
structural facts (primary-key uniqueness, foreign-key integrity of
`parent_quota_id`, and absence of self-parenting) that the schema
guarantees and that make the capacity invariants inductive. -/

/-- The id is not used by any row (uuid freshness / primary key). -/
abbrev freshId (quotas : List Quota) (id : String) : Prop := ∀ q ∈ quotas, q.id ≠ id

/-- Primary-key uniqueness of the `quotas` table. -/
abbrev IdsNodup (quotas : List Quota) : Prop := (quotas.map Quota.id).Nodup

/-- Foreign-key integrity: `parent_quota_id REFERENCES quotas(id)`
(soft deletion never removes rows, so parents always remain present). -/
abbrev ParentRefsExist (quotas : List Quota) : Prop :=
  ∀ q ∈ quotas, q.parentQuotaID = none ∨ ∃ r ∈ quotas, some r.id = q.parentQuotaID

/-- No row is its own parent (roots have no parent; children get a fresh
uuid distinct from the parent's id). -/
abbrev NoSelfParent (quotas : List Quota) : Prop :=
  ∀ q ∈ quotas, q.parentQuotaID ≠ some q.id

/-- Capacity invariant of one row: the schema CHECK constraints
`used_mb >= 0`, `allocated_mb >= 0` and `used_mb + allocated_mb <=
total_mb` (the latter is the claimed invariant 1). -/
abbrev CapacityOk (q : Quota) : Prop :=
  0 ≤ q.usedMB ∧ 0 ≤ q.allocatedMB ∧ q.usedMB + q.allocatedMB ≤ q.totalMB

/-- Contribution of one row to its parent's child-total sum: its
`total_mb` when it is a non-deleted direct child of `pid`. -/
def childContrib (pid : String) (q : Quota) : Int :=
  if q.parentQuotaID = some pid ∧ q.status ≠ QuotaStatusDeleted then q.totalMB else 0

/-- Sum of `total_mb` over the direct non-deleted children of `pid`. -/
def childrenTotalSum (quotas : List Quota) (pid : String) : Int :=
  (quotas.map (childContrib pid)).sum

/-- Claimed invariant 2: every node's `allocated_mb` equals the sum of
`total_mb` over its direct non-deleted children. -/
abbrev ChildSumInv (quotas : List Quota) : Prop :=
  ∀ q ∈ quotas, q.allocatedMB = childrenTotalSum quotas q.id

/-- The full ledger invariant: the two claimed capacity invariants for
every node, together with the structural auxiliaries that make them
inductive under the five operations. -/
abbrev LedgerInv (quotas : List Quota) : Prop :=
  IdsNodup quotas ∧ ParentRefsExist quotas ∧ NoSelfParent quotas ∧
    (∀ q ∈ quotas, CapacityOk q) ∧ ChildSumInv quotas

/-! ## Helper lemmas about list surgery -/

theorem list_sum_map_nonneg (g : Quota → Int) :
    ∀ (Q : List Quota), (∀ q ∈ Q, 0 ≤ g q) → 0 ≤ (Q.map g).sum := by
  intro Q h
  exact List.sum_nonneg (by intro x hx; obtain ⟨q, hq, rfl⟩ := List.mem_map.mp hx; exact h q hq)

theorem list_map_congr_mem {f g : Quota → Int} :
    ∀ {Q : List Quota}, (∀ q ∈ Q, f q = g q) → Q.map f = Q.map g :=
  fun h => List.map_congr_left h

/-- Summing a function after an update that only touches rows with the
id of a member `x` of a duplicate-free list changes the sum by exactly
the delta at `x`. -/
theorem sum_map_delta (g : Quota → Int) (u : Quota → Quota) :
    ∀ (Q : List Quota), ∀ x : Quota, x ∈ Q → (Q.map Quota.id).Nodup →
      (∀ q, q.id ≠ x.id → u q = q) →
      ((Q.map u).map g).sum = (Q.map g).sum + (g (u x) - g x) := by
  intro Q
  induction Q with
  | nil => intro x hx; cases hx
  | cons a Q ih =>
    intro x hx hnd hu
    rw [List.map_cons, List.nodup_cons] at hnd
    obtain ⟨ha, hndQ⟩ := hnd
    rcases List.mem_cons.mp hx with rfl | hxQ
    · have hrest : Q.map u = Q := by
        conv_rhs => rw [← List.map_id Q]
        apply List.map_congr_left
        intro q hq
        apply hu
        intro hid
        exact ha (hid ▸ List.mem_map_of_mem Quota.id hq)
      simp only [List.map_cons, hrest, List.sum_cons]
      ring
    · have hax : a.id ≠ x.id := by
        intro h
        exact ha (h ▸ List.mem_map_of_mem Quota.id hxQ)
      have hua : u a = a := hu a hax
      simp only [List.map_cons, hua, List.sum_cons, ih x hxQ hndQ hu]
      ring

/-- With duplicate-free ids, any two members sharing an id are equal. -/
theorem eq_of_mem_of_id_eq {Q : List Quota} (hnd : (Q.map Quota.id).Nodup)
    {x y : Quota} (hx : x ∈ Q) (hy : y ∈ Q) (h : x.id = y.id) : x = y :=
  (List.inj_on_of_nodup_map hnd) hx hy h

/-- A member's contribution is at most the whole child-total sum when
all contributions are nonnegative. -/
theorem childContrib_le_sum {Q : List Quota} {x : Quota} (pid : String) (hx : x ∈ Q)
    (h : ∀ q ∈ Q, 0 ≤ childContrib pid q) :
    childContrib pid x ≤ childrenTotalSum Q pid := by
  unfold childrenTotalSum
  refine List.single_le_sum ?_ _ (List.mem_map_of_mem (childContrib pid) hx)
  intro y hy
  obtain ⟨q, hq, rfl⟩ := List.mem_map.mp hy
  exact h q hq

/-- Contributions are nonnegative whenever the capacity invariant holds
(every `total_mb` is nonnegative). -/
theorem childContrib_nonneg {Q : List Quota} (pid : String)
    (hcap : ∀ q ∈ Q, CapacityOk q) : ∀ q ∈ Q, 0 ≤ childContrib pid q := by
  intro q hq
  unfold childContrib
  split
  · obtain ⟨h1, h2, h3⟩ := hcap q hq
    omega
  · exact le_refl 0

theorem childrenTotalSum_append (Q : List Quota) (c : Quota) (pid : String) :
    childrenTotalSum (Q ++ [c]) pid = childrenTotalSum Q pid + childContrib pid c := by
  unfold childrenTotalSum
  rw [List.map_append, List.sum_append]
  simp

/-- A map that preserves every row's contribution preserves the sum. -/
theorem childrenTotalSum_map_congr (Q : List Quota) (u : Quota → Quota) (pid : String)
    (h : ∀ q ∈ Q, childContrib pid (u q) = childContrib pid q) :
    childrenTotalSum (Q.map u) pid = childrenTotalSum Q pid := by
  unfold childrenTotalSum
  rw [List.map_map]
  exact congrArg List.sum (list_map_congr_mem h)

theorem childrenTotalSum_eq_zero (Q : List Quota) (pid : String)
    (h : ∀ q ∈ Q, childContrib pid q = 0) : childrenTotalSum Q pid = 0 := by
  unfold childrenTotalSum
  rw [list_map_congr_mem h]
  simp

/-- An update that does not change ids keeps the id list (hence its
`Nodup` status). -/
theorem updateQuotas_map_id (Q : List Quota) (i : String) (f : Quota → Quota)
    (hf : ∀ q, (f q).id = q.id) :
    (updateQuotas Q i f).map Quota.id = Q.map Quota.id := by
  unfold updateQuotas
  rw [List.map_map]
  apply List.map_congr_left
  intro q _
  by_cases h : (q.id == i) = true <;> simp [Function.comp, h, hf]

/-- Membership in an updated table comes from membership in the
original one. -/
theorem mem_updateQuotas {Q : List Quota} {i : String} {f : Quota → Quota} {q' : Quota}
    (h : q' ∈ updateQuotas Q i f) :
    ∃ q ∈ Q, q' = if q.id = i then f q else q := by
  unfold updateQuotas at h
  obtain ⟨q, hq, rfl⟩ := List.mem_map.mp h
  refine ⟨q, hq, ?_⟩
  by_cases hid : q.id = i <;> simp [hid]

theorem updateQuotas_mem_of_mem {Q : List Quota} {q : Quota} (i : String) (f : Quota → Quota)
    (hq : q ∈ Q) : (if q.id = i then f q else q) ∈ updateQuotas Q i f := by
  unfold updateQuotas
  have := List.mem_map_of_mem (fun q => if q.id == i then f q else q) hq
  by_cases hid : q.id = i <;> simpa [hid] using this

/-- Lookups commute with an update whose function changes neither the
predicate's verdict. -/
theorem find?_map_pred (p : Quota → Bool) (u : Quota → Quota)
    (hp : ∀ q, p (u q) = p q) :
    ∀ Q : List Quota, (Q.map u).find? p = (Q.find? p).map u := by
  intro Q
  induction Q with
  | nil => rfl
  | cons a Q ih =>
    by_cases h : p a = true
    · rw [List.map_cons, List.find?_cons_of_pos _ (by rw [hp]; exact h),
        List.find?_cons_of_pos _ h, Option.map_some']
    · rw [List.map_cons, List.find?_cons_of_neg _ (by rw [hp]; simpa using h),
        List.find?_cons_of_neg _ (by simpa using h), ih]

theorem find?_append_cases (p : Quota → Bool) (Q₁ Q₂ : List Quota) :
    (Q₁ ++ Q₂).find? p = ((Q₁.find? p).orElse fun _ => Q₂.find? p) := by
  induction Q₁ with
  | nil => rfl
  | cons a Q₁ ih =>
    by_cases h : p a = true
    · rw [List.cons_append, List.find?_cons_of_pos _ h, List.find?_cons_of_pos _ h]
      rfl
    · rw [List.cons_append, List.find?_cons_of_neg _ (by simpa using h),
        List.find?_cons_of_neg _ (by simpa using h), ih]

@[simp] theorem withAvailable_id (q : Quota) : (withAvailable q).id = q.id := rfl

@[simp] theorem withAvailable_totalMB (q : Quota) : (withAvailable q).totalMB = q.totalMB := rfl

@[simp] theorem withAvailable_usedMB (q : Quota) : (withAvailable q).usedMB = q.usedMB := rfl

@[simp] theorem withAvailable_allocatedMB (q : Quota) :
    (withAvailable q).allocatedMB = q.allocatedMB := rfl

@[simp] theorem withAvailable_availableMB (q : Quota) :
    (withAvailable q).availableMB = q.totalMB - q.usedMB - q.allocatedMB := rfl

@[simp] theorem withAvailable_status (q : Quota) : (withAvailable q).status = q.status := rfl

@[simp] theorem withAvailable_parentQuotaID (q : Quota) :
    (withAvailable q).parentQuotaID = q.parentQuotaID := rfl

@[simp] theorem withAvailable_level (q : Quota) : (withAvailable q).level = q.level := rfl

@[simp] theorem withAvailable_path (q : Quota) : (withAvailable q).path = q.path := rfl

@[simp] theorem withAvailable_type (q : Quota) : (withAvailable q).type = q.type := rfl

@[simp] theorem withAvailable_teamID (q : Quota) : (withAvailable q).teamID = q.teamID := rfl

@[simp] theorem withAvailable_ownerID (q : Quota) : (withAvailable q).ownerID = q.ownerID := rfl

@[simp] theorem withAvailable_organizationID (q : Quota) :
    (withAvailable q).organizationID = q.organizationID := rfl

theorem predNotDeleted_true_iff {i : String} {q : Quota} :
    predNotDeleted i q = true ↔ q.id = i ∧ q.status ≠ QuotaStatusDeleted := by
  unfold predNotDeleted
  simp [Bool.and_eq_true, beq_iff_eq, Bool.not_eq_true', beq_eq_false_iff_ne]

/-- Unfolding a successful locked lookup: the found underlying row, its
properties, and the `find?` equation. -/
theorem getQuotaForUpdateTx_some_elim {Q : List Quota} {i : String} {q : Quota}
    (h : getQuotaForUpdateTx Q i = some q) :
    ∃ r, Q.find? (predNotDeleted i) = some r ∧ r ∈ Q ∧ r.id = i ∧
      r.status ≠ QuotaStatusDeleted ∧ q = withAvailable r := by
  unfold getQuotaForUpdateTx queryQuotaNotDeleted at h
  cases hf : Q.find? (predNotDeleted i) with
  | none => rw [hf] at h; exact Option.noConfusion h
  | some r =>
    rw [hf, Option.map_some'] at h
    have hp := predNotDeleted_true_iff.mp (List.find?_some hf)
    exact ⟨r, rfl, List.mem_of_find?_eq_some hf, hp.1, hp.2, (Option.some.inj h).symm⟩

/-- A locked lookup fails exactly when no row with the requested id has
a status other than `deleted`. -/
theorem getQuotaForUpdateTx_none_iff {Q : List Quota} {i : String} :
    getQuotaForUpdateTx Q i = none ↔
      ∀ q ∈ Q, ¬(q.id = i ∧ q.status ≠ QuotaStatusDeleted) := by
  unfold getQuotaForUpdateTx queryQuotaNotDeleted
  rw [Option.map_eq_none', List.find?_eq_none]
  constructor
  · intro h q hq hcon
    exact h q hq (predNotDeleted_true_iff.mpr hcon)
  · intro h q hq hp
    exact h q hq (predNotDeleted_true_iff.mp hp)

/-- The state returned by `appendAudit` always carries the same
`quotas` table. -/
theorem appendAudit_quotas (env : Env) (db : DBState) (a b c : String)
    (t : Option String) (d : List (String × String)) :
    (appendAudit env db a b c t d).quotas = db.quotas := by
  unfold appendAudit
  split <;> rfl

/-- The state returned by `appendAudit` always carries the same usage
journal. -/
theorem appendAudit_usage (env : Env) (db : DBState) (a b c : String)
    (t : Option String) (d : List (String × String)) :
    (appendAudit env db a b c t d).usage = db.usage := by
  unfold appendAudit
  split <;> rfl

/-- The audit table after `appendAudit`: the entry is present exactly
when the audit INSERT succeeded. -/
theorem appendAudit_auditLogs (env : Env) (db : DBState) (a b c : String)
    (t : Option String) (d : List (String × String)) :
    (appendAudit env db a b c t d).auditLogs =
      if env.auditInsertOk = true then db.auditLogs ++
        [{ quotaID := a, actionType := b, actorUserID := c, targetUserID := t, details := d }]
      else db.auditLogs := by
  unfold appendAudit
  split <;> simp_all

/-! ## Inversion lemmas: what a committed operation implies -/

theorem createQuota_ok_elim {env : Env} {u : UserInfo} {req : QuotaCreateRequest}
    {qid : String} {db db' : DBState} {q : Quota}
    (h : CreateQuota env u req qid db = .ok (db', q)) :
    0 < req.totalMB ∧ (req.type = QuotaTypeOrganization ∨ req.type = QuotaTypeTeam) ∧
    q = createRootQuota u req qid ∧
    db'.quotas = db.quotas ++ [createRootQuota u req qid] ∧
    db'.usage = db.usage := by
  unfold CreateQuota at h
  by_cases h1 : req.totalMB ≤ 0
  · rw [if_pos h1] at h; exact Except.noConfusion h
  · rw [if_neg h1] at h
    by_cases h2 : req.type ≠ QuotaTypeOrganization ∧ req.type ≠ QuotaTypeTeam
    · rw [if_pos h2] at h; exact Except.noConfusion h
    · rw [if_neg h2] at h
      by_cases h3 : req.type = QuotaTypeTeam ∧ (req.teamID = none ∨ req.teamID = some "")
      · rw [if_pos h3] at h; exact Except.noConfusion h
      · rw [if_neg h3] at h
        simp only [Except.ok.injEq, Prod.mk.injEq] at h
        obtain ⟨hdb', hq⟩ := h
        refine ⟨by omega, by tauto, hq.symm, ?_, ?_⟩
        · rw [← hdb', appendAudit_quotas]
        · rw [← hdb', appendAudit_usage]

theorem allocateQuota_ok_elim {env : Env} {u : UserInfo} {pid : String}
    {req : QuotaAllocateRequest} {cid : String} {db db' : DBState} {c : Quota}
    (h : AllocateQuota env u pid req cid db = .ok (db', c)) :
    env.checkPermission u pid [QuotaPermissionAdmin] = some true ∧
    0 < req.allocateMB ∧
    ∃ parentQuota, getQuotaForUpdateTx db.quotas pid = some parentQuota ∧
      req.allocateMB ≤ parentQuota.availableMB ∧
      validateAllocationRules parentQuota req = none ∧
      env.createResourceOk cid = true ∧
      c = allocChildQuota parentQuota pid req cid ∧
      db'.quotas = allocQuotasAfter db.quotas parentQuota pid req cid ∧
      db'.usage = db.usage := by
  unfold AllocateQuota at h
  cases hperm : env.checkPermission u pid [QuotaPermissionAdmin] with
  | none => simp only [hperm] at h; exact Except.noConfusion h
  | some b =>
    cases b with
    | false => simp only [hperm] at h; exact Except.noConfusion h
    | true =>
      simp only [hperm] at h
      by_cases hval : req.allocateMB ≤ 0
      · simp only [hval, if_true] at h; exact Except.noConfusion h
      · simp only [hval, if_false] at h
        cases hget : getQuotaForUpdateTx db.quotas pid with
        | none => simp only [hget] at h; exact Except.noConfusion h
        | some parentQuota =>
          simp only [hget] at h
          by_cases hcap : parentQuota.availableMB < req.allocateMB
          · simp only [hcap, if_true] at h; exact Except.noConfusion h
          · simp only [hcap, if_false] at h
            cases hrules : validateAllocationRules parentQuota req with
            | some msg => simp only [hrules] at h; exact Except.noConfusion h
            | none =>
              simp only [hrules] at h
              by_cases hres : env.createResourceOk cid = true
              · simp only [hres, Bool.not_true, Bool.false_eq_true, if_false,
                  Except.ok.injEq, Prod.mk.injEq] at h
                obtain ⟨hdb', hc⟩ := h
                refine ⟨rfl, by omega, parentQuota, rfl, by omega, hrules, hres, hc.symm,
                  ?_, ?_⟩
                · rw [← hdb', appendAudit_quotas]
                · rw [← hdb', appendAudit_usage]
              · simp only [Bool.not_eq_true] at hres
                simp only [hres, Bool.not_false, if_true] at h
                exact Except.noConfusion h

theorem releaseQuota_ok_elim {env : Env} {u : UserInfo} {qid : String} {db db' : DBState}
    (h : ReleaseQuota env u qid db = .ok db') :
    env.checkPermission u qid [QuotaPermissionAdmin] = some true ∧
    ∃ quota, getQuotaForUpdateTx db.quotas qid = some quota ∧
      quota.usedMB ≤ 0 ∧ quota.allocatedMB ≤ 0 ∧
      db'.quotas = releaseQuotasAfter db.quotas quota qid ∧
      db'.usage = db.usage := by
  unfold ReleaseQuota at h
  cases hperm : env.checkPermission u qid [QuotaPermissionAdmin] with
  | none => simp only [hperm] at h; exact Except.noConfusion h
  | some b =>
    cases b with
    | false => simp only [hperm] at h; exact Except.noConfusion h
    | true =>
      simp only [hperm] at h
      cases hget : getQuotaForUpdateTx db.quotas qid with
      | none => simp only [hget] at h; exact Except.noConfusion h
      | some quota =>
        simp only [hget] at h
        by_cases hbusy : 0 < quota.usedMB ∨ 0 < quota.allocatedMB
        · simp only [hbusy, if_true] at h; exact Except.noConfusion h
        · simp only [hbusy, if_false, Except.ok.injEq] at h
          refine ⟨rfl, quota, rfl, by omega, by omega, ?_, ?_⟩
          · rw [← h, appendAudit_quotas]
          · rw [← h, appendAudit_usage]

theorem allocateUsage_ok_elim {env : Env} {u : UserInfo} {qid : String}
    {req : QuotaUsageRequest} {db db' : DBState}
    (h : AllocateUsage env u qid req db = .ok db') :
    env.checkPermission u qid [QuotaPermissionRead] = some true ∧
    env.usageInsertOk = true ∧
    ∃ quota, getQuotaForUpdateTx db.quotas qid = some quota ∧
      req.usageMB ≤ quota.totalMB - quota.usedMB - quota.allocatedMB ∧
      db'.quotas = updateQuotas db.quotas qid
        (fun q => { q with usedMB := q.usedMB + req.usageMB }) ∧
      db'.usage = db.usage ++
        [{ quotaID := qid, userID := u.userID, resourceID := req.resourceID,
           usageMB := req.usageMB, operation := OperationAllocate, reason := req.reason }] ∧
      db'.auditLogs = (if env.auditInsertOk = true then db.auditLogs ++
        [{ quotaID := qid, actionType := "usage_allocate", actorUserID := u.userID,
           targetUserID := none,
           details := [("resource_id", req.resourceID), ("usage_mb", toString req.usageMB),
             ("reason", req.reason)] }] else db.auditLogs) := by
  unfold AllocateUsage at h
  cases hperm : env.checkPermission u qid [QuotaPermissionRead] with
  | none => simp only [hperm] at h; exact Except.noConfusion h
  | some b =>
    cases b with
    | false => simp only [hperm] at h; exact Except.noConfusion h
    | true =>
      simp only [hperm] at h
      cases hget : getQuotaForUpdateTx db.quotas qid with
      | none => simp only [hget] at h; exact Except.noConfusion h
      | some quota =>
        simp only [hget] at h
        by_cases hcap : quota.totalMB - quota.usedMB - quota.allocatedMB < req.usageMB
        · simp only [hcap, if_true] at h; exact Except.noConfusion h
        · simp only [hcap, if_false] at h
          by_cases hins : env.usageInsertOk = true
          · simp only [hins, Bool.not_true, Bool.false_eq_true, if_false,
              Except.ok.injEq] at h
            refine ⟨rfl, hins, quota, rfl, by omega, ?_, ?_, ?_⟩
            · rw [← h, appendAudit_quotas]
            · rw [← h, appendAudit_usage]
            · rw [← h, appendAudit_auditLogs]
          · simp only [Bool.not_eq_true] at hins
            simp only [hins, Bool.not_false, if_true] at h
            exact Except.noConfusion h

theorem deallocateUsage_ok_elim {env : Env} {u : UserInfo} {qid : String}
    {req : QuotaUsageRequest} {db db' : DBState}
    (h : DeallocateUsage env u qid req db = .ok db') :
    env.checkPermission u qid [QuotaPermissionRead] = some true ∧
    env.usageInsertOk = true ∧
    ∃ quota, getQuotaForUpdateTx db.quotas qid = some quota ∧
      req.usageMB ≤ quota.usedMB ∧
      db'.quotas = updateQuotas db.quotas qid
        (fun q => { q with usedMB := q.usedMB - req.usageMB }) := by
  unfold DeallocateUsage at h
  cases hperm : env.checkPermission u qid [QuotaPermissionRead] with
  | none => simp only [hperm] at h; exact Except.noConfusion h
  | some b =>
    cases b with
    | false => simp only [hperm] at h; exact Except.noConfusion h
    | true =>
      simp only [hperm] at h
      cases hget : getQuotaForUpdateTx db.quotas qid with
      | none => simp only [hget] at h; exact Except.noConfusion h
      | some quota =>
        simp only [hget] at h
        by_cases hlow : quota.usedMB < req.usageMB
        · simp only [hlow, if_true] at h; exact Except.noConfusion h
        · simp only [hlow, if_false] at h
          by_cases hins : env.usageInsertOk = true
          · simp only [hins, Bool.not_true, Bool.false_eq_true, if_false,
              Except.ok.injEq] at h
            refine ⟨rfl, hins, quota, rfl, by omega, ?_⟩
            rw [← h, appendAudit_quotas]
          · simp only [Bool.not_eq_true] at hins
            simp only [hins, Bool.not_false, if_true] at h
            exact Except.noConfusion h

/-! ## Invariant preservation -/

theorem freshId_not_mem_ids {Q : List Quota} {i : String} (h : freshId Q i) :
    i ∉ Q.map Quota.id := by
  intro hmem
  obtain ⟨q, hq, hqi⟩ := List.mem_map.mp hmem
  exact h q hq hqi

/-- No existing row can point at a fresh id as its parent, thanks to
foreign-key integrity. -/
theorem no_parent_ref_of_fresh {Q : List Quota} {i : String}
    (href : ParentRefsExist Q) (hfresh : freshId Q i) :
    ∀ q ∈ Q, q.parentQuotaID ≠ some i := by
  intro q hq hcon
  rcases href q hq with hnone | ⟨r, hr, hrid⟩
  · rw [hnone] at hcon; exact Option.noConfusion hcon
  · rw [hcon] at hrid
    exact hfresh r hr (Option.some.inj hrid)

theorem idsNodup_updateQuotas {Q : List Quota} {i : String} {f : Quota → Quota}
    (hid : ∀ q, (f q).id = q.id) (h : IdsNodup Q) : IdsNodup (updateQuotas Q i f) := by
  unfold IdsNodup
  rw [updateQuotas_map_id Q i f hid]
  exact h

theorem parentRefsExist_updateQuotas {Q : List Quota} {i : String} {f : Quota → Quota}
    (hid : ∀ q, (f q).id = q.id) (hpar : ∀ q, (f q).parentQuotaID = q.parentQuotaID)
    (h : ParentRefsExist Q) : ParentRefsExist (updateQuotas Q i f) := by
  intro q' hq'
  obtain ⟨q, hq, hq'eq⟩ := mem_updateQuotas hq'
  have hq'par : q'.parentQuotaID = q.parentQuotaID := by
    rw [hq'eq]; split <;> simp [hpar]
  rcases h q hq with hnone | ⟨r, hr, hrid⟩
  · left; rw [hq'par, hnone]
  · right
    refine ⟨if r.id = i then f r else r, updateQuotas_mem_of_mem i f hr, ?_⟩
    rw [hq'par, ← hrid]
    congr 1
    split <;> simp [hid]

theorem noSelfParent_updateQuotas {Q : List Quota} {i : String} {f : Quota → Quota}
    (hid : ∀ q, (f q).id = q.id) (hpar : ∀ q, (f q).parentQuotaID = q.parentQuotaID)
    (h : NoSelfParent Q) : NoSelfParent (updateQuotas Q i f) := by
  intro q' hq'
  obtain ⟨q, hq, hq'eq⟩ := mem_updateQuotas hq'
  have h1 : q'.parentQuotaID = q.parentQuotaID := by rw [hq'eq]; split <;> simp [hpar]
  have h2 : q'.id = q.id := by rw [hq'eq]; split <;> simp [hid]
  rw [h1, h2]
  exact h q hq

theorem childContrib_congr {p : String} {q q' : Quota}
    (hpar : q'.parentQuotaID = q.parentQuotaID) (hst : q'.status = q.status)
    (htot : q'.totalMB = q.totalMB) : childContrib p q' = childContrib p q := by
  unfold childContrib
  rw [hpar, hst, htot]

theorem childContrib_eq_zero_of_parent_ne {p : String} {q : Quota}
    (h : q.parentQuotaID ≠ some p) : childContrib p q = 0 := by
  unfold childContrib
  rw [if_neg]
  intro hcon
  exact h hcon.1

theorem childContrib_eq_zero_of_deleted {p : String} {q : Quota}
    (h : q.status = QuotaStatusDeleted) : childContrib p q = 0 := by
  unfold childContrib
  rw [if_neg]
  intro hcon
  exact hcon.2 h

/-- Inserting a fresh root row preserves the full ledger invariant. -/
theorem ledgerInv_create {Q : List Quota} {u : UserInfo} {req : QuotaCreateRequest}
    {qid : String} (hInv : LedgerInv Q) (hfresh : freshId Q qid) (hpos : 0 < req.totalMB) :
    LedgerInv (Q ++ [createRootQuota u req qid]) := by
  obtain ⟨hnd, href, hself, hcap, hsum⟩ := hInv
  have hcpar : (createRootQuota u req qid).parentQuotaID = none := rfl
  have hcid : (createRootQuota u req qid).id = qid := rfl
  have hczero : ∀ p, childContrib p (createRootQuota u req qid) = 0 := by
    intro p
    exact childContrib_eq_zero_of_parent_ne (by rw [hcpar]; exact fun h => Option.noConfusion h)
  refine ⟨?_, ?_, ?_, ?_, ?_⟩
  · unfold IdsNodup
    rw [List.map_append, List.nodup_append]
    refine ⟨hnd, List.nodup_singleton _, ?_⟩
    intro a ha hb
    simp only [List.map_cons, List.map_nil, List.mem_singleton, hcid] at hb
    exact freshId_not_mem_ids hfresh (hb ▸ ha)
  · intro q hq
    rcases List.mem_append.mp hq with hq | hq
    · rcases href q hq with hnone | ⟨r, hr, hrid⟩
      · exact Or.inl hnone
      · exact Or.inr ⟨r, List.mem_append_left _ hr, hrid⟩
    · left
      rw [List.mem_singleton.mp hq, hcpar]
  · intro q hq
    rcases List.mem_append.mp hq with hq | hq
    · exact hself q hq
    · rw [List.mem_singleton.mp hq, hcpar]
      exact fun h => Option.noConfusion h
  · intro q hq
    rcases List.mem_append.mp hq with hq | hq
    · exact hcap q hq
    · rw [List.mem_singleton.mp hq]
      refine ⟨le_refl 0, le_refl 0, ?_⟩
      show (0 : Int) + 0 ≤ req.totalMB
      omega
  · intro q hq
    rw [childrenTotalSum_append, hczero, add_zero]
    rcases List.mem_append.mp hq with hq | hq
    · exact hsum q hq
    · rw [List.mem_singleton.mp hq]
      show (0 : Int) = childrenTotalSum Q (createRootQuota u req qid).id
      rw [hcid]
      refine (childrenTotalSum_eq_zero Q qid ?_).symm
      intro r hr
      exact childContrib_eq_zero_of_parent_ne (no_parent_ref_of_fresh href hfresh r hr)

/-- A row update that changes neither ids, parents, statuses, totals
nor allocations preserves the full ledger invariant, provided the
capacity triple of the touched row stays legal. -/
theorem ledgerInv_updateQuotas_of_preserve {Q : List Quota} {i : String} {f : Quota → Quota}
    (hid : ∀ q, (f q).id = q.id)
    (hpar : ∀ q, (f q).parentQuotaID = q.parentQuotaID)
    (hst : ∀ q, (f q).status = q.status)
    (htot : ∀ q, (f q).totalMB = q.totalMB)
    (hall : ∀ q, (f q).allocatedMB = q.allocatedMB)
    (hInv : LedgerInv Q)
    (hcap : ∀ q ∈ Q, q.id = i → CapacityOk (f q)) :
    LedgerInv (updateQuotas Q i f) := by
  obtain ⟨hnd, href, hself, hcapQ, hsum⟩ := hInv
  have hsum' : ∀ p, childrenTotalSum (updateQuotas Q i f) p = childrenTotalSum Q p := by
    intro p
    unfold updateQuotas
    apply childrenTotalSum_map_congr
    intro q _
    split
    · exact childContrib_congr (hpar q) (hst q) (htot q)
    · rfl
  refine ⟨idsNodup_updateQuotas hid hnd, parentRefsExist_updateQuotas hid hpar href,
    noSelfParent_updateQuotas hid hpar hself, ?_, ?_⟩
  · intro q' hq'
    obtain ⟨q, hq, hq'eq⟩ := mem_updateQuotas hq'
    rw [hq'eq]
    split
    · exact hcap q hq (by assumption)
    · exact hcapQ q hq
  · intro q' hq'
    obtain ⟨q, hq, hq'eq⟩ := mem_updateQuotas hq'
    have h1 : q'.allocatedMB = q.allocatedMB := by rw [hq'eq]; split <;> simp [hall]
    have h2 : q'.id = q.id := by rw [hq'eq]; split <;> simp [hid]
    rw [h1, h2, hsum']
    exact hsum q hq

/-- `AllocateUsage` preserves the ledger invariant (for a positive
requested amount, as the request binding and the `usage_mb > 0` CHECK
constraint guarantee). -/
theorem ledgerInv_allocateUsage {Q : List Quota} {qid : String} {n : Int} {quota : Quota}
    (hInv : LedgerInv Q) (hget : getQuotaForUpdateTx Q qid = some quota)
    (hle : n ≤ quota.totalMB - quota.usedMB - quota.allocatedMB) (hpos : 0 < n) :
    LedgerInv (updateQuotas Q qid (fun q => { q with usedMB := q.usedMB + n })) := by
  obtain ⟨r, _, hrmem, hrid, _, hq⟩ := getQuotaForUpdateTx_some_elim hget
  refine ledgerInv_updateQuotas_of_preserve (fun _ => rfl) (fun _ => rfl) (fun _ => rfl)
    (fun _ => rfl) (fun _ => rfl) hInv ?_
  intro q hqmem hqid
  have hqr : q = r := eq_of_mem_of_id_eq hInv.1 hqmem hrmem (hqid.trans hrid.symm)
  subst hqr
  obtain ⟨c1, c2, c3⟩ := hInv.2.2.2.1 q hqmem
  rw [hq] at hle
  simp only [withAvailable_totalMB, withAvailable_usedMB, withAvailable_allocatedMB] at hle
  exact ⟨show (0:Int) ≤ q.usedMB + n by omega, show (0:Int) ≤ q.allocatedMB by omega,
    show q.usedMB + n + q.allocatedMB ≤ q.totalMB by omega⟩

/-- `DeallocateUsage` preserves the ledger invariant (for a positive
requested amount). -/
theorem ledgerInv_deallocateUsage {Q : List Quota} {qid : String} {n : Int} {quota : Quota}
    (hInv : LedgerInv Q) (hget : getQuotaForUpdateTx Q qid = some quota)
    (hle : n ≤ quota.usedMB) (hpos : 0 < n) :
    LedgerInv (updateQuotas Q qid (fun q => { q with usedMB := q.usedMB - n })) := by
  obtain ⟨r, _, hrmem, hrid, _, hq⟩ := getQuotaForUpdateTx_some_elim hget
  refine ledgerInv_updateQuotas_of_preserve (fun _ => rfl) (fun _ => rfl) (fun _ => rfl)
    (fun _ => rfl) (fun _ => rfl) hInv ?_
  intro q hqmem hqid
  have hqr : q = r := eq_of_mem_of_id_eq hInv.1 hqmem hrmem (hqid.trans hrid.symm)
  subst hqr
  obtain ⟨c1, c2, c3⟩ := hInv.2.2.2.1 q hqmem
  rw [hq] at hle
  simp only [withAvailable_usedMB] at hle
  exact ⟨show (0:Int) ≤ q.usedMB - n by omega, show (0:Int) ≤ q.allocatedMB by omega,
    show q.usedMB - n + q.allocatedMB ≤ q.totalMB by omega⟩

theorem capacityOk_congr {q q' : Quota} (hu : q'.usedMB = q.usedMB)
    (ha : q'.allocatedMB = q.allocatedMB) (ht : q'.totalMB = q.totalMB)
    (h : CapacityOk q) : CapacityOk q' :=
  ⟨by rw [hu]; exact h.1, by rw [ha]; exact h.2.1, by rw [hu, ha, ht]; exact h.2.2⟩

/-- The contribution of the released row to its parent is its full
`total_mb`. -/
theorem childContrib_of_child {pid : String} {r : Quota} (hpar : r.parentQuotaID = some pid)
    (hst : r.status ≠ QuotaStatusDeleted) : childContrib pid r = r.totalMB := by
  unfold childContrib
  rw [if_pos ⟨hpar, hst⟩]

/-- `ReleaseQuota` preserves the ledger invariant. -/
theorem ledgerInv_release {Q : List Quota} {qid : String} {quota : Quota}
    (hInv : LedgerInv Q) (hget : getQuotaForUpdateTx Q qid = some quota) :
    LedgerInv (releaseQuotasAfter Q quota qid) := by
  obtain ⟨r, hfind, hrmem, hrid, hrst, hq⟩ := getQuotaForUpdateTx_some_elim hget
  obtain ⟨hnd, href, hself, hcap, hsum⟩ := hInv
  have hmark_id : ∀ q : Quota,
      ((fun (q : Quota) => { q with status := QuotaStatusDeleted, deletedAt := some () }) q).id
        = q.id :=
    fun _ => rfl
  have hmark_par : ∀ q : Quota,
      ((fun (q : Quota) =>
        { q with status := QuotaStatusDeleted, deletedAt := some () }) q).parentQuotaID
        = q.parentQuotaID :=
    fun _ => rfl
  rw [hq]
  unfold releaseQuotasAfter
  simp only [withAvailable_parentQuotaID, withAvailable_totalMB]
  cases hpar : r.parentQuotaID with
  | none =>
    have hsum' : ∀ p,
        childrenTotalSum (updateQuotas Q qid
          (fun q => { q with status := QuotaStatusDeleted, deletedAt := some () })) p
          = childrenTotalSum Q p := by
      intro p
      unfold childrenTotalSum updateQuotas
      rw [sum_map_delta (childContrib p) _ Q r hrmem hnd]
      · rw [beq_iff_eq.mpr hrid, if_pos rfl]
        rw [childContrib_eq_zero_of_deleted rfl,
          childContrib_eq_zero_of_parent_ne (by rw [hpar]; exact fun h => Option.noConfusion h)]
        ring
      · intro q hqid
        rw [if_neg]
        simp only [beq_iff_eq]
        rw [hrid] at hqid
        exact hqid
    refine ⟨idsNodup_updateQuotas hmark_id hnd,
      parentRefsExist_updateQuotas hmark_id hmark_par href,
      noSelfParent_updateQuotas hmark_id hmark_par hself, ?_, ?_⟩
    · intro q' hq'
      obtain ⟨q, hqm, hq'eq⟩ := mem_updateQuotas hq'
      refine capacityOk_congr ?_ ?_ ?_ (hcap q hqm) <;> rw [hq'eq] <;> split <;> rfl
    · intro q' hq'
      obtain ⟨q, hqm, hq'eq⟩ := mem_updateQuotas hq'
      have h1 : q'.allocatedMB = q.allocatedMB := by rw [hq'eq]; split <;> rfl
      have h2 : q'.id = q.id := by rw [hq'eq]; split <;> rfl
      rw [h1, h2, hsum']
      exact hsum q hqm
  | some pid =>
    have hpidne : pid ≠ qid := by
      intro h
      apply hself r hrmem
      rw [hpar, h, hrid]
    have hrcap := hcap r hrmem
    have ht0 : 0 ≤ r.totalMB := by
      obtain ⟨c1, c2, c3⟩ := hrcap
      omega
    have hcontrib_r : ∀ p, childContrib p r = if pid = p then r.totalMB else 0 := by
      intro p
      by_cases hp : pid = p
      · rw [if_pos hp]
        exact childContrib_of_child (hp ▸ hpar) hrst
      · rw [if_neg hp]
        refine childContrib_eq_zero_of_parent_ne ?_
        rw [hpar]
        intro hcon
        exact hp (Option.some.inj hcon)
    have hsub_id : ∀ q : Quota,
        ((fun (q : Quota) => { q with allocatedMB := q.allocatedMB - r.totalMB }) q).id = q.id :=
      fun _ => rfl
    have hsub_par : ∀ q : Quota,
        ((fun (q : Quota) =>
          { q with allocatedMB := q.allocatedMB - r.totalMB }) q).parentQuotaID
          = q.parentQuotaID :=
      fun _ => rfl
    set Q1 := updateQuotas Q pid (fun q => { q with allocatedMB := q.allocatedMB - r.totalMB })
      with hQ1
    have hnd1 : (Q1.map Quota.id).Nodup := by
      rw [hQ1, updateQuotas_map_id _ _ _ hsub_id]
      exact hnd
    have hrmem1 : r ∈ Q1 := by
      have := updateQuotas_mem_of_mem pid
        (fun q => { q with allocatedMB := q.allocatedMB - r.totalMB }) hrmem
      rw [if_neg (by rw [hrid]; exact fun h => hpidne h.symm)] at this
      exact this
    have hsum1 : ∀ p, childrenTotalSum Q1 p = childrenTotalSum Q p := by
      intro p
      rw [hQ1]
      unfold updateQuotas
      apply childrenTotalSum_map_congr
      intro q _
      split
      · exact childContrib_congr rfl rfl rfl
      · rfl
    have hsum' : ∀ p,
        childrenTotalSum (updateQuotas Q1 qid
          (fun q => { q with status := QuotaStatusDeleted, deletedAt := some () })) p
          = childrenTotalSum Q p - childContrib p r := by
      intro p
      have h1 := hsum1 p
      unfold childrenTotalSum at h1
      unfold childrenTotalSum updateQuotas
      rw [sum_map_delta (childContrib p) _ Q1 r hrmem1 hnd1]
      · rw [beq_iff_eq.mpr hrid, if_pos rfl, childContrib_eq_zero_of_deleted rfl, h1]
        ring
      · intro q hqid
        rw [if_neg]
        simp only [beq_iff_eq]
        rw [hrid] at hqid
        exact hqid
    refine ⟨idsNodup_updateQuotas hmark_id hnd1,
      parentRefsExist_updateQuotas hmark_id hmark_par
        (parentRefsExist_updateQuotas hsub_id hsub_par href),
      noSelfParent_updateQuotas hmark_id hmark_par
        (noSelfParent_updateQuotas hsub_id hsub_par hself), ?_, ?_⟩
    · intro q'' hq''
      obtain ⟨q1, hq1m, hq''eq⟩ := mem_updateQuotas hq''
      obtain ⟨q, hqm, hq1eq⟩ := mem_updateQuotas hq1m
      have hused : q''.usedMB = q.usedMB := by
        rw [hq''eq, hq1eq]; split <;> split <;> rfl
      have htot : q''.totalMB = q.totalMB := by
        rw [hq''eq, hq1eq]; split <;> split <;> rfl
      by_cases hqpid : q.id = pid
      · have halloc : q''.allocatedMB = q.allocatedMB - r.totalMB := by
          rw [hq''eq, hq1eq, if_pos hqpid]; split <;> rfl
        have hqsum := hsum q hqm
        rw [hqpid] at hqsum
        have hle : r.totalMB ≤ childrenTotalSum Q pid := by
          rw [← childContrib_of_child hpar hrst]
          exact childContrib_le_sum pid hrmem (childContrib_nonneg pid hcap)
        obtain ⟨c1, c2, c3⟩ := hcap q hqm
        refine ⟨by rw [hused]; exact c1, by rw [halloc]; omega, ?_⟩
        rw [hused, halloc, htot]
        omega
      · have halloc : q''.allocatedMB = q.allocatedMB := by
          rw [hq''eq, hq1eq, if_neg hqpid]; split <;> rfl
        exact capacityOk_congr hused halloc htot (hcap q hqm)
    · intro q'' hq''
      obtain ⟨q1, hq1m, hq''eq⟩ := mem_updateQuotas hq''
      obtain ⟨q, hqm, hq1eq⟩ := mem_updateQuotas hq1m
      have hid : q''.id = q.id := by
        rw [hq''eq, hq1eq]; split <;> split <;> rfl
      have hqsum := hsum q hqm
      rw [hid, hsum', hcontrib_r]
      by_cases hqpid : q.id = pid
      · have halloc : q''.allocatedMB = q.allocatedMB - r.totalMB := by
          rw [hq''eq, hq1eq, if_pos hqpid]; split <;> rfl
        rw [halloc, if_pos hqpid.symm, hqsum]
      · have halloc : q''.allocatedMB = q.allocatedMB := by
          rw [hq''eq, hq1eq, if_neg hqpid]; split <;> rfl
        rw [halloc, if_neg (fun h => hqpid h.symm), hqsum]
        ring

/-- `AllocateQuota` preserves the ledger invariant when the generated
child id is fresh (primary-key uniqueness of uuids). -/
theorem ledgerInv_allocate {Q : List Quota} {pid : String} {req : QuotaAllocateRequest}
    {cid : String} {parentQuota : Quota}
    (hInv : LedgerInv Q) (hfresh : freshId Q cid)
    (hget : getQuotaForUpdateTx Q pid = some parentQuota)
    (hcaple : req.allocateMB ≤ parentQuota.availableMB)
    (hpos : 0 < req.allocateMB) :
    LedgerInv (allocQuotasAfter Q parentQuota pid req cid) := by
  obtain ⟨r, hfind, hrmem, hrid, hrst, hq⟩ := getQuotaForUpdateTx_some_elim hget
  obtain ⟨hnd, href, hself, hcap, hsum⟩ := hInv
  rw [hq] at hcaple
  simp only [withAvailable_availableMB] at hcaple
  have hpidcid : pid ≠ cid := fun h => hfresh r hrmem (hrid.trans h)
  have hcid : (allocChildQuota parentQuota pid req cid).id = cid := rfl
  have hcpar : (allocChildQuota parentQuota pid req cid).parentQuotaID = some pid := rfl
  have hctot : (allocChildQuota parentQuota pid req cid).totalMB = req.allocateMB := rfl
  have hcused : (allocChildQuota parentQuota pid req cid).usedMB = 0 := rfl
  have hcalloc : (allocChildQuota parentQuota pid req cid).allocatedMB = 0 := rfl
  have hcst : (allocChildQuota parentQuota pid req cid).status = QuotaStatusActive := rfl
  have hadd_id : ∀ q : Quota,
      ((fun (q : Quota) => { q with allocatedMB := q.allocatedMB + req.allocateMB }) q).id
        = q.id :=
    fun _ => rfl
  have hadd_par : ∀ q : Quota,
      ((fun (q : Quota) =>
        { q with allocatedMB := q.allocatedMB + req.allocateMB }) q).parentQuotaID
        = q.parentQuotaID :=
    fun _ => rfl
  have hndc : ((Q ++ [allocChildQuota parentQuota pid req cid]).map Quota.id).Nodup := by
    rw [List.map_append, List.nodup_append]
    refine ⟨hnd, List.nodup_singleton _, ?_⟩
    intro a ha hb
    simp only [List.map_cons, List.map_nil, List.mem_singleton, hcid] at hb
    exact freshId_not_mem_ids hfresh (hb ▸ ha)
  have hrefc : ParentRefsExist (Q ++ [allocChildQuota parentQuota pid req cid]) := by
    intro q hqm
    rcases List.mem_append.mp hqm with hqm | hqm
    · rcases href q hqm with hnone | ⟨s, hs, hsid⟩
      · exact Or.inl hnone
      · exact Or.inr ⟨s, List.mem_append_left _ hs, hsid⟩
    · right
      rw [List.mem_singleton.mp hqm, hcpar]
      exact ⟨r, List.mem_append_left _ hrmem, by rw [hrid]⟩
  have hselfc : NoSelfParent (Q ++ [allocChildQuota parentQuota pid req cid]) := by
    intro q hqm
    rcases List.mem_append.mp hqm with hqm | hqm
    · exact hself q hqm
    · rw [List.mem_singleton.mp hqm, hcpar, hcid]
      intro h
      exact hpidcid (Option.some.inj h)
  have hcontrib_c : ∀ p, childContrib p (allocChildQuota parentQuota pid req cid)
      = if pid = p then req.allocateMB else 0 := by
    intro p
    by_cases hp : pid = p
    · rw [if_pos hp, ← hctot]
      exact childContrib_of_child (hp ▸ hcpar) (by rw [hcst]; decide)
    · rw [if_neg hp]
      refine childContrib_eq_zero_of_parent_ne ?_
      rw [hcpar]
      intro hcon
      exact hp (Option.some.inj hcon)
  have hsum' : ∀ p, childrenTotalSum (allocQuotasAfter Q parentQuota pid req cid) p
      = childrenTotalSum Q p + (if pid = p then req.allocateMB else 0) := by
    intro p
    unfold allocQuotasAfter updateQuotas
    rw [childrenTotalSum_map_congr _ _ p ?_]
    · rw [childrenTotalSum_append, hcontrib_c]
    · intro q _
      split
      · exact childContrib_congr rfl rfl rfl
      · rfl
  unfold allocQuotasAfter
  refine ⟨idsNodup_updateQuotas hadd_id hndc,
    parentRefsExist_updateQuotas hadd_id hadd_par hrefc,
    noSelfParent_updateQuotas hadd_id hadd_par hselfc, ?_, ?_⟩
  · intro q' hq'
    obtain ⟨q, hqm, hq'eq⟩ := mem_updateQuotas hq'
    rcases List.mem_append.mp hqm with hqQ | hqc
    · by_cases hqpid : q.id = pid
      · have hqr : q = r := eq_of_mem_of_id_eq hnd hqQ hrmem (hqpid.trans hrid.symm)
        subst hqr
        obtain ⟨c1, c2, c3⟩ := hcap q hqQ
        rw [hq'eq, if_pos hqpid]
        exact ⟨by show (0:Int) ≤ q.usedMB; omega,
          by show (0:Int) ≤ q.allocatedMB + req.allocateMB; omega,
          by show q.usedMB + (q.allocatedMB + req.allocateMB) ≤ q.totalMB; omega⟩
      · rw [hq'eq, if_neg hqpid]
        exact hcap q hqQ
    · rw [List.mem_singleton.mp hqc] at hq'eq
      rw [hq'eq, if_neg (by rw [hcid]; exact fun h => hpidcid h.symm)]
      exact ⟨show (0:Int) ≤ 0 by omega, show (0:Int) ≤ 0 by omega,
        show (0:Int) + 0 ≤ req.allocateMB by omega⟩
  · intro q' hq'
    obtain ⟨q, hqm, hq'eq⟩ := mem_updateQuotas hq'
    have hsum'' := hsum' q'.id
    unfold allocQuotasAfter at hsum''
    rw [hsum'']
    rcases List.mem_append.mp hqm with hqQ | hqc
    · by_cases hqpid : q.id = pid
      · have hqr : q = r := eq_of_mem_of_id_eq hnd hqQ hrmem (hqpid.trans hrid.symm)
        subst hqr
        have h1 : q'.allocatedMB = q.allocatedMB + req.allocateMB := by
          rw [hq'eq, if_pos hqpid]
        have h2 : q'.id = q.id := by rw [hq'eq, if_pos hqpid]
        rw [h1, h2, hqpid, if_pos rfl, ← hqpid, hsum q hqQ, hqpid]
      · have h1 : q'.allocatedMB = q.allocatedMB := by rw [hq'eq, if_neg hqpid]
        have h2 : q'.id = q.id := by rw [hq'eq, if_neg hqpid]
        rw [h1, h2, if_neg (fun h => hqpid h.symm), add_zero]
        exact hsum q hqQ
    · rw [List.mem_singleton.mp hqc] at hq'eq
      have h1 : q' = allocChildQuota parentQuota pid req cid := by
        rw [hq'eq, if_neg (by rw [hcid]; exact fun h => hpidcid h.symm)]
      rw [h1, hcalloc, hcid, if_neg hpidcid]
      rw [childrenTotalSum_eq_zero Q cid ?_]
      · ring
      · intro s hs
        exact childContrib_eq_zero_of_parent_ne (no_parent_ref_of_fresh href hfresh s hs)

/-! ## The operations as ledger transitions -/

/-- The ledger-mutating operations of the quota engine. -/
inductive QuotaOp where
  | createRoot (userInfo : UserInfo) (request : QuotaCreateRequest) (quotaID : String)
  | allocate (userInfo : UserInfo) (parentQuotaID : String)
      (request : QuotaAllocateRequest) (childQuotaID : String)
  | release (userInfo : UserInfo) (quotaID : String)
  | allocateUsage (userInfo : UserInfo) (quotaID : String) (request : QuotaUsageRequest)
  | deallocateUsage (userInfo : UserInfo) (quotaID : String) (request : QuotaUsageRequest)

/-- Run one engine operation against the database state. -/
def runOp (env : Env) (op : QuotaOp) (db : DBState) : Except QuotaError DBState :=
  match op with
  | .createRoot u r qid => (CreateQuota env u r qid db).map Prod.fst
  | .allocate u pid r cid => (AllocateQuota env u pid r cid db).map Prod.fst
  | .release u qid => ReleaseQuota env u qid db
  | .allocateUsage u qid r => AllocateUsage env u qid r db
  | .deallocateUsage u qid r => DeallocateUsage env u qid r db

/-- Side conditions the surrounding system guarantees for each call:
generated uuid ids are fresh (primary-key uniqueness of the `quotas`
table), and usage amounts are positive (the HTTP request binding
`min=1` and the schema CHECK constraint `usage_mb > 0`). -/
abbrev opWellFormed (op : QuotaOp) (db : DBState) : Prop :=
  match op with
  | .createRoot _ _ qid => freshId db.quotas qid
  | .allocate _ _ _ cid => freshId db.quotas cid
  | .release _ _ => True
  | .allocateUsage _ _ r => 0 < r.usageMB
  | .deallocateUsage _ _ r => 0 < r.usageMB

theorem except_map_fst_ok {α β γ : Type} {x : Except γ (α × β)} {a : α}
    (h : x.map Prod.fst = .ok a) : ∃ b, x = .ok (a, b) := by
  cases x with
  | error e => simp [Except.map] at h
  | ok p =>
    simp only [Except.map, Except.ok.injEq] at h
    exact ⟨p.2, by rw [← h]⟩

/-! ## Concrete fixtures for witnesses and counterexamples -/

/-- An oracle that grants everything and an environment where every
external call and INSERT succeeds. -/
def envAll : Env :=
  { checkPermission := fun _ _ _ => some true,
    createResourceOk := fun _ => true,
    grantPermissionOk := fun _ _ => true,
    auditInsertOk := true, usageInsertOk := true }

/-- A resolved actor identity. -/
def alice : UserInfo := { userID := "u1", organizationID := "o1", teamIDs := [] }

/-- A root-creation request for a 10000 MB organization quota. -/
def reqRoot : QuotaCreateRequest :=
  { name := "root", description := "", type := QuotaTypeOrganization,
    totalMB := 10000, teamID := none }

/-- An allocation request for a 2000 MB team sub-quota. -/
def reqChild : QuotaAllocateRequest :=
  { name := "child", description := "", allocateMB := 2000,
    type := QuotaTypeTeam, targetID := "t1", adminUserIDs := [] }

/-- The empty database. -/
def dbEmpty : DBState := { quotas := [], usage := [], auditLogs := [] }

/-- An active 10000 MB organization root row. -/
def rootRow : Quota :=
  { id := "quota_r", name := "root", description := "",
    type := QuotaTypeOrganization, totalMB := 10000, usedMB := 0, allocatedMB := 0,
    availableMB := 0, parentQuotaID := none, level := 0, path := "/quota_r",
    ownerID := "u1", organizationID := "o1", teamID := none,
    status := QuotaStatusActive, deletedAt := none }

/-- A ledger holding one active 10000 MB organization root. -/
def dbRoot : DBState := { quotas := [rootRow], usage := [], auditLogs := [] }

/-- The state reached from `dbRoot` by allocating the 2000 MB child. -/
def dbRootChild : DBState :=
  match runOp envAll (QuotaOp.allocate alice "quota_r" reqChild "quota_c") dbRoot with
  | .ok d => d
  | .error _ => dbRoot

/-! ## Claim C1 -/

/-- C1: after every committed operation (CreateRoot, Allocate, Release,
AllocateUsage, DeallocateUsage) on a state satisfying the ledger
invariant, every node in the ledger satisfies `used + allocated ≤ total`
and every node's `allocated` equals the sum of `total` over its direct
non-deleted children; the full invariant (including the structural
auxiliaries that make it inductive) is preserved.  The `opWellFormed`
hypothesis carries the guarantees of the surrounding system: freshness
of generated uuids and positivity of usage amounts. -/
theorem invariant_preservation (env : Env) (op : QuotaOp) (db db' : DBState)
    (hInv : LedgerInv db.quotas) (hwf : opWellFormed op db)
    (hrun : runOp env op db = .ok db') :
    (∀ q ∈ db'.quotas, q.usedMB + q.allocatedMB ≤ q.totalMB) ∧
    (∀ q ∈ db'.quotas, q.allocatedMB = childrenTotalSum db'.quotas q.id) ∧
    LedgerInv db'.quotas := by
  have hInv' : LedgerInv db'.quotas := by
    cases op with
    | createRoot u r qid =>
      obtain ⟨q, hcq⟩ := except_map_fst_ok hrun
      obtain ⟨hpos, _, _, hquotas, _⟩ := createQuota_ok_elim hcq
      rw [hquotas]
      exact ledgerInv_create hInv hwf hpos
    | allocate u pid r cid =>
      obtain ⟨c, hcq⟩ := except_map_fst_ok hrun
      obtain ⟨_, hpos, parentQuota, hget, hle, _, _, _, hquotas, _⟩ :=
        allocateQuota_ok_elim hcq
      rw [hquotas]
      exact ledgerInv_allocate hInv hwf hget hle hpos
    | release u qid =>
      obtain ⟨_, quota, hget, _, _, hquotas, _⟩ := releaseQuota_ok_elim hrun
      rw [hquotas]
      exact ledgerInv_release hInv hget
    | allocateUsage u qid r =>
      obtain ⟨_, _, quota, hget, hle, hquotas, _, _⟩ := allocateUsage_ok_elim hrun
      rw [hquotas]
      exact ledgerInv_allocateUsage hInv hget hle hwf
    | deallocateUsage u qid r =>
      obtain ⟨_, _, quota, hget, hle, hquotas⟩ := deallocateUsage_ok_elim hrun
      rw [hquotas]
      exact ledgerInv_deallocateUsage hInv hget hle hwf
  exact ⟨fun q hq => (hInv'.2.2.2.1 q hq).2.2, hInv'.2.2.2.2, hInv'⟩

/-- Witness for C1 at a concrete input: allocating a 2000 MB child from
a 10000 MB root commits and preserves the invariant. -/
theorem invariant_preservation_witness :
    runOp envAll (QuotaOp.allocate alice "quota_r" reqChild "quota_c") dbRoot
      = .ok dbRootChild ∧
    LedgerInv dbRootChild.quotas :=
  ⟨rfl, (invariant_preservation envAll
    (QuotaOp.allocate alice "quota_r" reqChild "quota_c") dbRoot dbRootChild
    (by decide) (by decide) rfl).2.2⟩

/-! ## Claim C2 -/

/-- Spec-side rendering of the hierarchy rule, written from the claim's
words (to be compared with `validateAllocationRules` from the source):
an organization parent accepts organization or team children
unconditionally; a team parent accepts only a team child whose
`targetId` equals the parent's (set) `teamId`. -/
abbrev hierarchyRuleSpec (parentQuota : Quota) (request : QuotaAllocateRequest) : Prop :=
  (parentQuota.type = QuotaTypeOrganization ∧
    (request.type = QuotaTypeOrganization ∨ request.type = QuotaTypeTeam)) ∨
  (parentQuota.type = QuotaTypeTeam ∧ request.type = QuotaTypeTeam ∧
    parentQuota.teamID = some request.targetID)

theorem validateAllocationRules_none_iff (p : Quota) (r : QuotaAllocateRequest) :
    validateAllocationRules p r = none ↔ hierarchyRuleSpec p r := by
  unfold validateAllocationRules hierarchyRuleSpec
  split_ifs with h1 h2 h3
  · simp only [true_iff]
    exact Or.inl ⟨h1.1, Or.inr h1.2⟩
  · simp only [true_iff]
    exact Or.inl ⟨h2.1, Or.inl h2.2⟩
  · split
    · next hteam =>
      simp only [reduceCtorEq, false_iff]
      rintro (⟨hp, _⟩ | ⟨_, _, hsome⟩)
      · exact absurd (hp.symm.trans h3.1) (by decide)
      · rw [hteam] at hsome
        exact Option.noConfusion hsome
    · next tid hteam =>
      by_cases htgt : r.targetID ≠ tid
      · rw [if_pos htgt]
        simp only [reduceCtorEq, false_iff]
        rintro (⟨hp, _⟩ | ⟨_, _, hsome⟩)
        · exact absurd (hp.symm.trans h3.1) (by decide)
        · rw [hteam] at hsome
          exact htgt (Option.some.inj hsome).symm
      · rw [if_neg htgt]
        push_neg at htgt
        simp only [true_iff]
        exact Or.inr ⟨h3.1, h3.2, by rw [hteam, htgt]⟩
  · simp only [reduceCtorEq, false_iff]
    rintro (⟨hp, hr | hr⟩ | ⟨hp, hr, _⟩)
    · exact h2 ⟨hp, hr⟩
    · exact h1 ⟨hp, hr⟩
    · exact h3 ⟨hp, hr⟩

/-- C2: the hierarchy check of Allocate succeeds exactly for the
claimed combinations, and when it rejects — with the capability check,
amount validation and capacity check already cleared — the allocation
returns a HierarchyViolation error carrying the check's message and
produces no successor state (the transaction rolls back, leaving the
ledger unchanged). -/
theorem hierarchy_rule_correct :
    (∀ (p : Quota) (r : QuotaAllocateRequest),
      validateAllocationRules p r = none ↔ hierarchyRuleSpec p r) ∧
    (∀ (env : Env) (u : UserInfo) (pid : String) (req : QuotaAllocateRequest)
      (cid : String) (db : DBState) (parentQuota : Quota),
      env.checkPermission u pid [QuotaPermissionAdmin] = some true →
      0 < req.allocateMB →
      getQuotaForUpdateTx db.quotas pid = some parentQuota →
      req.allocateMB ≤ parentQuota.availableMB →
      ¬ hierarchyRuleSpec parentQuota req →
      ∃ msg, validateAllocationRules parentQuota req = some msg ∧
        AllocateQuota env u pid req cid db = .error (.hierarchyViolation msg)) := by
  refine ⟨validateAllocationRules_none_iff, ?_⟩
  intro env u pid req cid db parentQuota hperm hpos hget hcap hspec
  cases hmsg : validateAllocationRules parentQuota req with
  | none => exact absurd ((validateAllocationRules_none_iff _ _).mp hmsg) hspec
  | some msg =>
    refine ⟨msg, rfl, ?_⟩
    have h1 : ¬(req.allocateMB ≤ 0) := by omega
    have h2 : ¬(parentQuota.availableMB < req.allocateMB) := by omega
    simp only [AllocateQuota, hperm, h1, if_false, hget, h2, hmsg]

/-- A 1000 MB team-kind parent bound to team `t1`. -/
def teamParentRow : Quota :=
  { id := "quota_t", name := "teamroot", description := "",
    type := QuotaTypeTeam, totalMB := 1000, usedMB := 0, allocatedMB := 0,
    availableMB := 0, parentQuotaID := none, level := 0, path := "/quota_t",
    ownerID := "u1", organizationID := "o1", teamID := some "t1",
    status := QuotaStatusActive, deletedAt := none }

/-- A ledger holding only the team-kind parent. -/
def dbTeamParent : DBState := { quotas := [teamParentRow], usage := [], auditLogs := [] }

/-- A team-kind allocation request targeting the other team `t2`. -/
def reqTeamOther : QuotaAllocateRequest :=
  { name := "other", description := "", allocateMB := 100,
    type := QuotaTypeTeam, targetID := "t2", adminUserIDs := [] }

/-- Witness for C2: a team parent bound to `t1` rejects a request
targeting `t2` with a HierarchyViolation. -/
theorem hierarchy_rule_correct_witness :
    (validateAllocationRules teamParentRow reqTeamOther = none ↔
      hierarchyRuleSpec teamParentRow reqTeamOther) ∧
    ∃ msg, validateAllocationRules (withAvailable teamParentRow) reqTeamOther = some msg ∧
      AllocateQuota envAll alice "quota_t" reqTeamOther "quota_c2" dbTeamParent
        = .error (.hierarchyViolation msg) :=
  ⟨hierarchy_rule_correct.1 teamParentRow reqTeamOther,
   hierarchy_rule_correct.2 envAll alice "quota_t" reqTeamOther "quota_c2" dbTeamParent
     (withAvailable teamParentRow) rfl (by decide) rfl (by decide) (by decide)⟩

/-! ## Claim C3 -/

/-- C3 (code bug): a valid CreateRoot call succeeds and the returned
node has every claimed field — parent null, level 0, path `"/" + id`,
used 0, allocated 0, total = totalMB, owner and organization from the
actor, status active — and its derived headroom `total - used -
allocated` indeed equals `totalMB`; but the `available_mb` field of the
returned value is left at 0: the create path never computes the derived
field, although the DB column is generated as `total_mb - used_mb -
allocated_mb` and every read path computes it.  For `totalMB > 0` the
claimed `available = totalMB` therefore fails on the returned node. -/
theorem createQuota_fields (env : Env) (u : UserInfo) (req : QuotaCreateRequest)
    (qid : String) (db : DBState)
    (hpos : 0 < req.totalMB)
    (hkind : req.type = QuotaTypeOrganization ∨ req.type = QuotaTypeTeam)
    (hteam : req.type = QuotaTypeTeam → ∃ t, req.teamID = some t ∧ t ≠ "") :
    ∃ db' q, CreateQuota env u req qid db = .ok (db', q) ∧
      q.parentQuotaID = none ∧ q.level = 0 ∧ q.path = "/" ++ qid ∧
      q.usedMB = 0 ∧ q.allocatedMB = 0 ∧ q.totalMB = req.totalMB ∧
      q.ownerID = u.userID ∧ q.organizationID = u.organizationID ∧
      q.status = QuotaStatusActive ∧
      q.totalMB - q.usedMB - q.allocatedMB = req.totalMB ∧
      q.availableMB = 0 := by
  have h1 : ¬(req.totalMB ≤ 0) := by omega
  have h2 : ¬(req.type ≠ QuotaTypeOrganization ∧ req.type ≠ QuotaTypeTeam) := by tauto
  have h3 : ¬(req.type = QuotaTypeTeam ∧ (req.teamID = none ∨ req.teamID = some "")) := by
    rintro ⟨ht, hcase⟩
    obtain ⟨t, hteq, htne⟩ := hteam ht
    rcases hcase with h | h
    · rw [hteq] at h; exact Option.noConfusion h
    · rw [hteq] at h; exact htne (Option.some.inj h)
  have hrun : CreateQuota env u req qid db = .ok
      (appendAudit env { db with quotas := db.quotas ++ [createRootQuota u req qid] } qid
        "create" u.userID none
        [("name", (createRootQuota u req qid).name),
         ("type", (createRootQuota u req qid).type),
         ("total_mb", toString (createRootQuota u req qid).totalMB)],
       createRootQuota u req qid) := by
    unfold CreateQuota
    rw [if_neg h1, if_neg h2, if_neg h3]
  exact ⟨_, _, hrun, rfl, rfl, rfl, rfl, rfl, rfl, rfl, rfl, rfl,
    (by show req.totalMB - 0 - 0 = req.totalMB; omega), rfl⟩

/-- Witness for C3: creating a 10000 MB organization root returns the
node with all claimed fields but `available_mb = 0`, not 10000. -/
theorem createQuota_fields_witness :
    ∃ db' q, CreateQuota envAll alice reqRoot "quota_r" dbEmpty = .ok (db', q) ∧
      q.parentQuotaID = none ∧ q.level = 0 ∧ q.path = "/" ++ "quota_r" ∧
      q.usedMB = 0 ∧ q.allocatedMB = 0 ∧ q.totalMB = reqRoot.totalMB ∧
      q.ownerID = alice.userID ∧ q.organizationID = alice.organizationID ∧
      q.status = QuotaStatusActive ∧
      q.totalMB - q.usedMB - q.allocatedMB = reqRoot.totalMB ∧
      q.availableMB = 0 :=
  createQuota_fields envAll alice reqRoot "quota_r" dbEmpty (by decide) (by decide)
    (fun h => absurd h (by decide))

/-! ## Claim C8 -/

/-- An environment whose oracle denies every capability. -/
def envDeny : Env := { envAll with checkPermission := fun _ _ _ => some false }

/-- The state produced by CreateRoot under the all-denying oracle. -/
def dbCreatedByDeny : DBState :=
  match CreateQuota envDeny alice reqRoot "quota_r" dbEmpty with
  | .ok (d, _) => d
  | .error _ => dbEmpty

/-- Counterexample for C8: with an oracle that denies every capability,
CreateRoot still commits and inserts its row — the create path performs
no capability check at all, refuting the claim that every operation
checks a capability before its transaction and aborts without side
effects on a failed check. -/
theorem createRoot_no_permission_check :
    CreateQuota envDeny alice reqRoot "quota_r" dbEmpty
      = .ok (dbCreatedByDeny, createRootQuota alice reqRoot "quota_r") ∧
    dbCreatedByDeny.quotas = [createRootQuota alice reqRoot "quota_r"] ∧
    dbCreatedByDeny.auditLogs.length = 1 :=
  ⟨rfl, rfl, rfl⟩

/-- C8 amended: Allocate, Release, AllocateUsage, DeallocateUsage and
GetNode each consult the oracle before their transaction and, on a
denied capability, abort with PermissionDenied and no successor state
(hence no ledger, journal or audit effect); CreateRoot, however,
performs no capability check: its result is entirely independent of the
oracle. -/
theorem permission_checks_before_transaction
    (o : UserInfo → String → List String → Option Bool) (env : Env)
    (u : UserInfo) (pid qid cid : String) (reqA : QuotaAllocateRequest)
    (reqU : QuotaUsageRequest) (reqC : QuotaCreateRequest) (db : DBState) :
    (env.checkPermission u pid [QuotaPermissionAdmin] = some false →
      AllocateQuota env u pid reqA cid db
        = .error (.permissionDenied "insufficient permissions to allocate quota")) ∧
    (env.checkPermission u qid [QuotaPermissionAdmin] = some false →
      ReleaseQuota env u qid db
        = .error (.permissionDenied "insufficient permissions to release quota")) ∧
    (env.checkPermission u qid [QuotaPermissionRead] = some false →
      AllocateUsage env u qid reqU db
        = .error (.permissionDenied "insufficient permissions to use quota")) ∧
    (env.checkPermission u qid [QuotaPermissionRead] = some false →
      DeallocateUsage env u qid reqU db
        = .error (.permissionDenied "insufficient permissions to deallocate quota usage")) ∧
    (env.checkPermission u qid [QuotaPermissionRead] = some false →
      GetQuota env u qid db
        = .error (.permissionDenied "insufficient permissions to view quota")) ∧
    (CreateQuota { env with checkPermission := o } u reqC qid db
      = CreateQuota env u reqC qid db) := by
  refine ⟨?_, ?_, ?_, ?_, ?_, rfl⟩
  all_goals intro hperm
  · simp only [AllocateQuota, hperm]
  · simp only [ReleaseQuota, hperm]
  · simp only [AllocateUsage, hperm]
  · simp only [DeallocateUsage, hperm]
  · simp only [GetQuota, hperm]

/-- Witness for C8's amended statement at concrete inputs: the denying
oracle blocks all five checked operations, and CreateRoot's result is
oracle-independent. -/
theorem permission_checks_before_transaction_witness :
    (AllocateQuota envDeny alice "quota_r" reqChild "quota_c" dbRoot
      = .error (.permissionDenied "insufficient permissions to allocate quota")) ∧
    (ReleaseQuota envDeny alice "quota_r" dbRoot
      = .error (.permissionDenied "insufficient permissions to release quota")) ∧
    (CreateQuota { envDeny with checkPermission := fun _ _ _ => none } alice reqRoot
      "quota_r" dbEmpty = CreateQuota envDeny alice reqRoot "quota_r" dbEmpty) := by
  have h := permission_checks_before_transaction (fun _ _ _ => none) envDeny alice
    "quota_r" "quota_r" "quota_c" reqChild
    { resourceID := "res1", usageMB := 100, reason := "x" } reqRoot dbRoot
  exact ⟨h.1 rfl, h.2.1 rfl, by
    have h2 := permission_checks_before_transaction (fun _ _ _ => none) envDeny alice
      "quota_r" "quota_r" "quota_c" reqChild
      { resourceID := "res1", usageMB := 100, reason := "x" } reqRoot dbEmpty
    exact h2.2.2.2.2.2⟩

/-! ## Claim C4 -/

/-- An environment where the auth-service resource registration fails. -/
def envNoResource : Env := { envAll with createResourceOk := fun _ => false }

/-- Counterexample for C4: with the auth-service registration of the new
child failing, the allocation itself fails and produces no successor
state — the capacity change does not persist.  The registration call is
made inside the transaction (step 6 of `AllocateQuota`), not after
commit, and its failure rolls the whole allocation back, contrary to the
claim. -/
theorem allocate_register_failure_rolls_back :
    AllocateQuota envNoResource alice "quota_r" reqChild "quota_c" dbRoot
      = .error (.upstream "failed to create child quota resource in auth service") := rfl

/-- C4 amended: the resource registration and the admin capability
grants are performed inside the transaction, before commit.  A failed
registration aborts the allocation with an error (so the child row and
the parent increment are rolled back, never committed), while the
per-admin grant calls are best-effort: their outcome has no influence at
all on the result. -/
theorem allocate_external_calls_in_transaction
    (env : Env) (u : UserInfo) (pid : String) (req : QuotaAllocateRequest) (cid : String)
    (db : DBState) (parentQuota : Quota) (g g' : String → String → Bool)
    (hperm : env.checkPermission u pid [QuotaPermissionAdmin] = some true)
    (hpos : 0 < req.allocateMB)
    (hget : getQuotaForUpdateTx db.quotas pid = some parentQuota)
    (hcap : req.allocateMB ≤ parentQuota.availableMB)
    (hrules : validateAllocationRules parentQuota req = none) :
    (env.createResourceOk cid = false →
      AllocateQuota env u pid req cid db
        = .error (.upstream "failed to create child quota resource in auth service")) ∧
    (AllocateQuota { env with grantPermissionOk := g } u pid req cid db
      = AllocateQuota { env with grantPermissionOk := g' } u pid req cid db) := by
  have h1 : ¬(req.allocateMB ≤ 0) := by omega
  have h2 : ¬(parentQuota.availableMB < req.allocateMB) := by omega
  refine ⟨?_, rfl⟩
  intro hres
  simp only [AllocateQuota, hperm, h1, if_false, hget, h2, hrules, hres, Bool.not_false,
    if_true]

/-- Witness for C4's amended statement at concrete inputs. -/
theorem allocate_external_calls_in_transaction_witness :
    (AllocateQuota envNoResource alice "quota_r" reqChild "quota_c" dbRoot
      = .error (.upstream "failed to create child quota resource in auth service")) ∧
    (AllocateQuota { envNoResource with grantPermissionOk := fun _ _ => true } alice
        "quota_r" reqChild "quota_c" dbRoot
      = AllocateQuota { envNoResource with grantPermissionOk := fun _ _ => false } alice
        "quota_r" reqChild "quota_c" dbRoot) := by
  have h := allocate_external_calls_in_transaction envNoResource alice "quota_r" reqChild
    "quota_c" dbRoot (withAvailable rootRow) (fun _ _ => true) (fun _ _ => false)
    rfl (by decide) rfl (by decide) (by decide)
  exact ⟨h.1 rfl, h.2⟩

/-! ## Claim C5 -/

/-- An environment where the audit INSERT fails (and everything else
succeeds). -/
def envNoAudit : Env := { envAll with auditInsertOk := false }

/-- A usage request for 100 MB. -/
def reqUse : QuotaUsageRequest := { resourceID := "res1", usageMB := 100, reason := "x" }

/-- The state committed by AllocateUsage when the audit INSERT fails. -/
def dbUsedNoAudit : DBState :=
  match AllocateUsage envNoAudit alice "quota_r" reqUse dbRoot with
  | .ok d => d
  | .error _ => dbRoot

/-- Counterexample for C5: with the audit INSERT failing, AllocateUsage
still commits — `used_mb` is incremented and the usage journal row is
written, but no audit entry exists.  The audit-write failure is logged
and swallowed by every call site rather than aborting the transaction,
so a committed capacity change can lack its audit entry. -/
theorem audit_swallowed_on_commit :
    AllocateUsage envNoAudit alice "quota_r" reqUse dbRoot = .ok dbUsedNoAudit ∧
    dbUsedNoAudit.quotas.map Quota.usedMB = [100] ∧
    dbUsedNoAudit.usage.length = 1 ∧
    dbUsedNoAudit.auditLogs = [] :=
  ⟨rfl, rfl, rfl, rfl⟩

/-- C5 amended: the capacity mutation, the usage-journal append and the
audit append are all attempted inside one transaction.  A failed
usage-journal INSERT aborts the whole operation (an error leaves no
successor state, so no partial write survives), and a committed
operation always carries its journal row; the audit append, however, is
best-effort: the operation commits with the audit entry present exactly
when the audit INSERT succeeded, so a committed capacity change may lack
its audit entry. -/
theorem journal_audit_transactionality (env : Env) (u : UserInfo) (qid : String)
    (req : QuotaUsageRequest) (db : DBState) (quota : Quota)
    (hperm : env.checkPermission u qid [QuotaPermissionRead] = some true)
    (hget : getQuotaForUpdateTx db.quotas qid = some quota)
    (hcap : ¬(quota.totalMB - quota.usedMB - quota.allocatedMB < req.usageMB)) :
    (env.usageInsertOk = false →
      AllocateUsage env u qid req db = .error (.storage "failed to record usage")) ∧
    (∀ db', AllocateUsage env u qid req db = .ok db' →
      db'.usage = db.usage ++
        [{ quotaID := qid, userID := u.userID, resourceID := req.resourceID,
           usageMB := req.usageMB, operation := OperationAllocate, reason := req.reason }] ∧
      db'.auditLogs = (if env.auditInsertOk = true then db.auditLogs ++
        [{ quotaID := qid, actionType := "usage_allocate", actorUserID := u.userID,
           targetUserID := none,
           details := [("resource_id", req.resourceID), ("usage_mb", toString req.usageMB),
             ("reason", req.reason)] }] else db.auditLogs)) := by
  constructor
  · intro hins
    simp only [AllocateUsage, hperm, hget, hcap, if_false, hins, Bool.not_false, if_true]
  · intro db' h
    obtain ⟨_, _, quota', hget', _, _, husage, haudit⟩ := allocateUsage_ok_elim h
    exact ⟨husage, haudit⟩

/-- An environment where the usage-journal INSERT fails. -/
def envNoJournal : Env := { envAll with usageInsertOk := false }

/-- Witness for C5's amended statement at concrete inputs: a failed
journal INSERT aborts AllocateUsage on the root ledger; with the failing
audit INSERT the committed state carries the journal row and (per the
`if`) no audit entry. -/
theorem journal_audit_transactionality_witness :
    (AllocateUsage envNoJournal alice "quota_r" reqUse dbRoot
      = .error (.storage "failed to record usage")) ∧
    (dbUsedNoAudit.usage = dbRoot.usage ++
        [{ quotaID := "quota_r", userID := alice.userID, resourceID := reqUse.resourceID,
           usageMB := reqUse.usageMB, operation := OperationAllocate,
           reason := reqUse.reason }] ∧
      dbUsedNoAudit.auditLogs = (if envNoAudit.auditInsertOk = true then
        dbRoot.auditLogs ++
        [{ quotaID := "quota_r", actionType := "usage_allocate", actorUserID := alice.userID,
           targetUserID := none,
           details := [("resource_id", reqUse.resourceID),
             ("usage_mb", toString reqUse.usageMB),
             ("reason", reqUse.reason)] }] else dbRoot.auditLogs)) :=
  ⟨(journal_audit_transactionality envNoJournal alice "quota_r" reqUse dbRoot
      (withAvailable rootRow) rfl rfl (by decide)).1 rfl,
   (journal_audit_transactionality envNoAudit alice "quota_r" reqUse dbRoot
      (withAvailable rootRow) rfl rfl (by decide)).2 dbUsedNoAudit rfl⟩

/-! ## Claim C9 -/

/-- A 1000 MB organization root with id `quota_p`. -/
def rootRow1000 : Quota := { rootRow with id := "quota_p", totalMB := 1000, path := "/quota_p" }

/-- A ledger holding the single 1000 MB parent. -/
def dbParent1000 : DBState := { quotas := [rootRow1000], usage := [], auditLogs := [] }

/-- A 700 MB team-child allocation request. -/
def reqBig : QuotaAllocateRequest :=
  { name := "big", description := "", allocateMB := 700, type := QuotaTypeTeam,
    targetID := "t1", adminUserIDs := [] }

/-- The state after the serialization in which child `quota_a` wins. -/
def dbAfterFirstA : DBState :=
  match AllocateQuota envAll alice "quota_p" reqBig "quota_a" dbParent1000 with
  | .ok (d, _) => d
  | .error _ => dbParent1000

/-- The state after the serialization in which child `quota_b` wins. -/
def dbAfterFirstB : DBState :=
  match AllocateQuota envAll alice "quota_p" reqBig "quota_b" dbParent1000 with
  | .ok (d, _) => d
  | .error _ => dbParent1000

/-- C9: the `FOR UPDATE` exclusive row lock serializes two transactions
that target the same parent, so a concurrent pair of 700 MB Allocate
calls on a parent with `available = 1000` executes in one of the two
serialization orders.  In each order the first call succeeds and the
second fails with InsufficientCapacity (available 300, requested 700):
exactly one succeeds, and the parent (allocated 700 of 1000) is never
over-committed. -/
theorem no_double_spend_serialized :
    ((AllocateQuota envAll alice "quota_p" reqBig "quota_a" dbParent1000).map Prod.fst
        = .ok dbAfterFirstA ∧
      AllocateQuota envAll alice "quota_p" reqBig "quota_b" dbAfterFirstA
        = .error (.insufficientCapacity 300 700)) ∧
    ((AllocateQuota envAll alice "quota_p" reqBig "quota_b" dbParent1000).map Prod.fst
        = .ok dbAfterFirstB ∧
      AllocateQuota envAll alice "quota_p" reqBig "quota_a" dbAfterFirstB
        = .error (.insufficientCapacity 300 700)) ∧
    ((dbAfterFirstA.quotas.find? (fun q => q.id == "quota_p")).map Quota.allocatedMB
        = some 700 ∧
      LedgerInv dbAfterFirstA.quotas) :=
  ⟨⟨rfl, rfl⟩, ⟨rfl, rfl⟩, rfl, by decide⟩

/-! ## Row-chasing helpers for successor states -/

/-- Lookup of a row by plain id, used to inspect successor states. -/
def rowById (quotas : List Quota) (i : String) : Option Quota :=
  quotas.find? (fun q => q.id == i)

theorem rowById_updateQuotas (Q : List Quota) (i j : String) (f : Quota → Quota)
    (hid : ∀ q, (f q).id = q.id) :
    rowById (updateQuotas Q j f) i
      = (rowById Q i).map (fun q => if q.id == j then f q else q) := by
  unfold rowById updateQuotas
  refine find?_map_pred _ _ ?_ Q
  intro q
  by_cases h : (q.id == j) = true <;> simp [h, hid]

theorem rowById_append (Q₁ Q₂ : List Quota) (i : String) :
    rowById (Q₁ ++ Q₂) i = ((rowById Q₁ i).orElse fun _ => rowById Q₂ i) :=
  find?_append_cases _ Q₁ Q₂

theorem rowById_none_of_fresh {Q : List Quota} {i : String} (h : freshId Q i) :
    rowById Q i = none := by
  unfold rowById
  rw [List.find?_eq_none]
  intro q hq
  simp only [beq_iff_eq]
  exact h q hq

theorem rowById_eq_of_mem {Q : List Quota} {r : Quota} {i : String}
    (hnd : IdsNodup Q) (hr : r ∈ Q) (hid : r.id = i) : rowById Q i = some r := by
  have hs : (Q.find? (fun q => q.id == i)).isSome :=
    List.find?_isSome.mpr ⟨r, hr, by simp [beq_iff_eq, hid]⟩
  cases hf : Q.find? (fun q => q.id == i) with
  | none => rw [hf] at hs; exact absurd hs (by simp)
  | some s =>
    have hsmem := List.mem_of_find?_eq_some hf
    have hsp := List.find?_some hf
    simp only [beq_iff_eq] at hsp
    unfold rowById
    rw [hf]
    exact congrArg some (eq_of_mem_of_id_eq hnd hsmem hr (hsp.trans hid.symm))

theorem find?_predNotDeleted_eq_some {Q : List Quota} {r : Quota} {i : String}
    (hnd : IdsNodup Q) (hr : r ∈ Q) (hid : r.id = i) (hst : r.status ≠ QuotaStatusDeleted) :
    Q.find? (predNotDeleted i) = some r := by
  have hs : (Q.find? (predNotDeleted i)).isSome :=
    List.find?_isSome.mpr ⟨r, hr, predNotDeleted_true_iff.mpr ⟨hid, hst⟩⟩
  cases hf : Q.find? (predNotDeleted i) with
  | none => rw [hf] at hs; exact absurd hs (by simp)
  | some s =>
    have hsmem := List.mem_of_find?_eq_some hf
    have hsp := predNotDeleted_true_iff.mp (List.find?_some hf)
    exact congrArg some (eq_of_mem_of_id_eq hnd hsmem hr (hsp.1.trans hid.symm))

/-- A row that exists (by primary key) and is not deleted is found by
the locked lookup, with its derived headroom computed. -/
theorem getQuotaForUpdateTx_eq_some {Q : List Quota} {r : Quota} {i : String}
    (hnd : IdsNodup Q) (hr : r ∈ Q) (hid : r.id = i) (hst : r.status ≠ QuotaStatusDeleted) :
    getQuotaForUpdateTx Q i = some (withAvailable r) := by
  unfold getQuotaForUpdateTx queryQuotaNotDeleted
  rw [find?_predNotDeleted_eq_some hnd hr hid hst, Option.map_some']

/-! ## Forward computation lemmas -/

theorem releaseQuota_ok_intro (env : Env) (u : UserInfo) (qid : String) (db : DBState)
    (quota : Quota)
    (hperm : env.checkPermission u qid [QuotaPermissionAdmin] = some true)
    (hget : getQuotaForUpdateTx db.quotas qid = some quota)
    (hbusy : ¬(0 < quota.usedMB ∨ 0 < quota.allocatedMB)) :
    ReleaseQuota env u qid db = .ok (appendAudit env
      { db with quotas := releaseQuotasAfter db.quotas quota qid } qid "release"
      u.userID none
      [("parent_quota_id", quota.parentQuotaID.getD "null"),
       ("returned_mb", toString quota.totalMB)]) := by
  simp only [ReleaseQuota, hperm, hget, hbusy, if_false]

theorem allocateQuota_ok_intro (env : Env) (u : UserInfo) (pid : String)
    (req : QuotaAllocateRequest) (cid : String) (db : DBState) (parentQuota : Quota)
    (hperm : env.checkPermission u pid [QuotaPermissionAdmin] = some true)
    (hpos : ¬(req.allocateMB ≤ 0))
    (hget : getQuotaForUpdateTx db.quotas pid = some parentQuota)
    (hcap : ¬(parentQuota.availableMB < req.allocateMB))
    (hrules : validateAllocationRules parentQuota req = none)
    (hres : env.createResourceOk cid = true) :
    AllocateQuota env u pid req cid db = .ok
      (appendAudit env
        { db with quotas := allocQuotasAfter db.quotas parentQuota pid req cid }
        cid "allocate" u.userID none
        [("parent_quota_id", pid),
         ("allocated_mb", toString req.allocateMB),
         ("name", (allocChildQuota parentQuota pid req cid).name),
         ("type", (allocChildQuota parentQuota pid req cid).type)],
       allocChildQuota parentQuota pid req cid) := by
  simp only [AllocateQuota, hperm, hpos, if_false, hget, hcap, hrules, hres, Bool.not_true,
    Bool.false_eq_true]

theorem allocateUsage_ok_intro (env : Env) (u : UserInfo) (qid : String)
    (req : QuotaUsageRequest) (db : DBState) (quota : Quota)
    (hperm : env.checkPermission u qid [QuotaPermissionRead] = some true)
    (hget : getQuotaForUpdateTx db.quotas qid = some quota)
    (hcap : ¬(quota.totalMB - quota.usedMB - quota.allocatedMB < req.usageMB))
    (hins : env.usageInsertOk = true) :
    AllocateUsage env u qid req db = .ok
      (appendAudit env
        { db with
          quotas := updateQuotas db.quotas qid
            (fun q => { q with usedMB := q.usedMB + req.usageMB }),
          usage := db.usage ++
            [{ quotaID := qid, userID := u.userID, resourceID := req.resourceID,
               usageMB := req.usageMB, operation := OperationAllocate,
               reason := req.reason }] }
        qid "usage_allocate" u.userID none
        [("resource_id", req.resourceID), ("usage_mb", toString req.usageMB),
         ("reason", req.reason)]) := by
  simp only [AllocateUsage, hperm, hget, hcap, if_false, hins, Bool.not_true,
    Bool.false_eq_true]

theorem deallocateUsage_ok_intro (env : Env) (u : UserInfo) (qid : String)
    (req : QuotaUsageRequest) (db : DBState) (quota : Quota)
    (hperm : env.checkPermission u qid [QuotaPermissionRead] = some true)
    (hget : getQuotaForUpdateTx db.quotas qid = some quota)
    (hlow : ¬(quota.usedMB < req.usageMB))
    (hins : env.usageInsertOk = true) :
    DeallocateUsage env u qid req db = .ok
      (appendAudit env
        { db with
          quotas := updateQuotas db.quotas qid
            (fun q => { q with usedMB := q.usedMB - req.usageMB }),
          usage := db.usage ++
            [{ quotaID := qid, userID := u.userID, resourceID := req.resourceID,
               usageMB := req.usageMB, operation := OperationDeallocate,
               reason := req.reason }] }
        qid "usage_deallocate" u.userID none
        [("resource_id", req.resourceID), ("usage_mb", toString req.usageMB),
         ("reason", req.reason)]) := by
  simp only [DeallocateUsage, hperm, hget, hlow, if_false, hins, Bool.not_true,
    Bool.false_eq_true]

/-! ## Claim C6 -/

/-- C6: with the capability granted and the node found, Release fails
with BusyResource exactly when the node has `used > 0` or
`allocated > 0` (an error carries no successor state, so all state is
unchanged); otherwise it commits a state in which the node is marked
`deleted` with `deleted_at` stamped and the parent's `allocated_mb` is
decremented by the node's `total_mb`; consequently an Allocate
immediately followed by a Release of the new child restores the
parent's `allocated_mb` and its derived available to their
pre-allocation values. -/
theorem release_semantics :
    (∀ (env : Env) (u : UserInfo) (qid : String) (db : DBState) (quota : Quota),
      env.checkPermission u qid [QuotaPermissionAdmin] = some true →
      getQuotaForUpdateTx db.quotas qid = some quota →
      (ReleaseQuota env u qid db
          = .error (.busyResource quota.usedMB quota.allocatedMB)
        ↔ (0 < quota.usedMB ∨ 0 < quota.allocatedMB))) ∧
    (∀ (env : Env) (u : UserInfo) (qid : String) (db : DBState) (quota : Quota),
      LedgerInv db.quotas →
      env.checkPermission u qid [QuotaPermissionAdmin] = some true →
      getQuotaForUpdateTx db.quotas qid = some quota →
      ¬(0 < quota.usedMB ∨ 0 < quota.allocatedMB) →
      ∃ db' r, ReleaseQuota env u qid db = .ok db' ∧
        db.quotas.find? (predNotDeleted qid) = some r ∧
        rowById db'.quotas qid
          = some { r with status := QuotaStatusDeleted, deletedAt := some () } ∧
        (∀ pid, quota.parentQuotaID = some pid →
          rowById db'.quotas pid = (rowById db.quotas pid).map
            (fun q => { q with allocatedMB := q.allocatedMB - quota.totalMB }))) ∧
    (∀ (env : Env) (u : UserInfo) (pid : String) (req : QuotaAllocateRequest)
      (cid : String) (db : DBState) (db1 : DBState) (c : Quota),
      LedgerInv db.quotas →
      freshId db.quotas cid →
      env.checkPermission u cid [QuotaPermissionAdmin] = some true →
      AllocateQuota env u pid req cid db = .ok (db1, c) →
      ∃ db2, ReleaseQuota env u cid db1 = .ok db2 ∧
        (rowById db2.quotas pid).map Quota.allocatedMB
          = (rowById db.quotas pid).map Quota.allocatedMB ∧
        (rowById db2.quotas pid).map (fun q => q.totalMB - q.usedMB - q.allocatedMB)
          = (rowById db.quotas pid).map (fun q => q.totalMB - q.usedMB - q.allocatedMB)) := by
  refine ⟨?_, ?_, ?_⟩
  · intro env u qid db quota hperm hget
    constructor
    · intro herr
      by_cases hbusy : 0 < quota.usedMB ∨ 0 < quota.allocatedMB
      · exact hbusy
      · rw [releaseQuota_ok_intro env u qid db quota hperm hget hbusy] at herr
        exact Except.noConfusion herr
    · intro hbusy
      simp only [ReleaseQuota, hperm, hget, hbusy, if_true]
  · intro env u qid db quota hInv hperm hget hbusy
    obtain ⟨r, hfind, hrmem, hrid, hrst, hq⟩ := getQuotaForUpdateTx_some_elim hget
    obtain ⟨hnd, href, hself, hcapQ, hsum⟩ := hInv
    refine ⟨_, r, releaseQuota_ok_intro env u qid db quota hperm hget hbusy, hfind, ?_, ?_⟩
    · rw [appendAudit_quotas]
      show rowById (releaseQuotasAfter db.quotas quota qid) qid = _
      rw [hq]
      unfold releaseQuotasAfter
      simp only [withAvailable_parentQuotaID, withAvailable_totalMB]
      cases hpar : r.parentQuotaID with
      | none =>
        show rowById (updateQuotas db.quotas qid
            (fun q => { q with status := QuotaStatusDeleted, deletedAt := some () })) qid
          = _
        rw [rowById_updateQuotas db.quotas qid qid
            (fun q => { q with status := QuotaStatusDeleted, deletedAt := some () })
            (fun q => rfl),
          rowById_eq_of_mem hnd hrmem hrid, Option.map_some', beq_iff_eq.mpr hrid,
          if_pos rfl, hpar]
      | some pid =>
        have hpidne : pid ≠ qid := by
          intro h
          apply hself r hrmem
          rw [hpar, h, hrid]
        have hrq : (r.id == qid) = true := beq_iff_eq.mpr hrid
        have hrp : (r.id == pid) = false := by
          rw [beq_eq_false_iff_ne, hrid]
          exact fun h => hpidne h.symm
        show rowById (updateQuotas (updateQuotas db.quotas pid
            (fun q => { q with allocatedMB := q.allocatedMB - r.totalMB })) qid
            (fun q => { q with status := QuotaStatusDeleted, deletedAt := some () })) qid
          = _
        rw [rowById_updateQuotas _ qid qid
            (fun q => { q with status := QuotaStatusDeleted, deletedAt := some () })
            (fun q => rfl),
          rowById_updateQuotas db.quotas qid pid
            (fun q => { q with allocatedMB := q.allocatedMB - r.totalMB })
            (fun q => rfl),
          rowById_eq_of_mem hnd hrmem hrid]
        simp only [Option.map_some', hrp, hrq, Bool.false_eq_true, eq_self_iff_true,
          if_false, if_true, hpar]
    · intro pid hpid
      rw [appendAudit_quotas]
      show rowById (releaseQuotasAfter db.quotas quota qid) pid = _
      have hrpar : r.parentQuotaID = some pid := by
        rw [hq] at hpid
        simpa using hpid
      have hpidne : pid ≠ qid := by
        intro h
        apply hself r hrmem
        rw [hrpar, h, hrid]
      unfold releaseQuotasAfter
      simp only [hpid]
      show rowById (updateQuotas (updateQuotas db.quotas pid
          (fun q => { q with allocatedMB := q.allocatedMB - quota.totalMB })) qid
          (fun q => { q with status := QuotaStatusDeleted, deletedAt := some () })) pid
        = _
      rw [rowById_updateQuotas _ pid qid
          (fun q => { q with status := QuotaStatusDeleted, deletedAt := some () })
          (fun q => rfl),
        rowById_updateQuotas db.quotas pid pid
          (fun q => { q with allocatedMB := q.allocatedMB - quota.totalMB })
          (fun q => rfl)]
      cases hrow : rowById db.quotas pid with
      | none => simp
      | some s =>
        have hsid : s.id = pid := by
          have := List.find?_some hrow
          simpa [beq_iff_eq] using this
        have hspid : (s.id == pid) = true := beq_iff_eq.mpr hsid
        have hsqid : (s.id == qid) = false := by
          rw [beq_eq_false_iff_ne, hsid]
          exact hpidne
        simp only [Option.map_some', hspid, hsqid, Bool.false_eq_true, eq_self_iff_true,
          if_false, if_true]
  · intro env u pid req cid db db1 c hInv hfresh hpermR hallocEq
    obtain ⟨_, hpos, parentQuota, hget, hcap, hrules, hres, hc, hq1, _⟩ :=
      allocateQuota_ok_elim hallocEq
    subst hc
    obtain ⟨r, hfind, hrmem, hrid, hrst, hq⟩ := getQuotaForUpdateTx_some_elim hget
    obtain ⟨hnd, href, hself, hcapQ, hsum⟩ := hInv
    have hpidcid : pid ≠ cid := fun h => hfresh r hrmem (hrid.trans h)
    have hcid : (allocChildQuota parentQuota pid req cid).id = cid := rfl
    have hcpar : (allocChildQuota parentQuota pid req cid).parentQuotaID = some pid := rfl
    have hctot : (allocChildQuota parentQuota pid req cid).totalMB = req.allocateMB := rfl
    have hcst : (allocChildQuota parentQuota pid req cid).status = QuotaStatusActive := rfl
    have hnd1 : IdsNodup db1.quotas := by
      rw [hq1]
      unfold IdsNodup allocQuotasAfter
      rw [updateQuotas_map_id (db.quotas ++ [allocChildQuota parentQuota pid req cid]) pid
          (fun q => { q with allocatedMB := q.allocatedMB + req.allocateMB })
          (fun q => rfl),
        List.map_append, List.nodup_append]
      refine ⟨hnd, List.nodup_singleton _, ?_⟩
      intro a ha hb
      simp only [List.map_cons, List.map_nil, List.mem_singleton, hcid] at hb
      exact freshId_not_mem_ids hfresh (hb ▸ ha)
    have hcmem : allocChildQuota parentQuota pid req cid ∈ db1.quotas := by
      rw [hq1]
      unfold allocQuotasAfter
      have hm : allocChildQuota parentQuota pid req cid
          ∈ db.quotas ++ [allocChildQuota parentQuota pid req cid] :=
        List.mem_append_right _ (List.mem_singleton.mpr rfl)
      have := updateQuotas_mem_of_mem pid
        (fun q => { q with allocatedMB := q.allocatedMB + req.allocateMB }) hm
      rw [if_neg (by rw [hcid]; exact fun h => hpidcid h.symm)] at this
      exact this
    have hgetC : getQuotaForUpdateTx db1.quotas cid
        = some (withAvailable (allocChildQuota parentQuota pid req cid)) :=
      getQuotaForUpdateTx_eq_some hnd1 hcmem hcid (by rw [hcst]; decide)
    have hbusy : ¬(0 < (withAvailable (allocChildQuota parentQuota pid req cid)).usedMB ∨
        0 < (withAvailable (allocChildQuota parentQuota pid req cid)).allocatedMB) := by
      show ¬((0:Int) < 0 ∨ (0:Int) < 0)
      omega
    have h1 : (r.id == pid) = true := beq_iff_eq.mpr hrid
    have h2 : (r.id == cid) = false := by
      rw [beq_eq_false_iff_ne, hrid]
      exact hpidcid
    have hrow : rowById (releaseQuotasAfter db1.quotas
        (withAvailable (allocChildQuota parentQuota pid req cid)) cid) pid
        = some { r with allocatedMB := r.allocatedMB + req.allocateMB - req.allocateMB } := by
      unfold releaseQuotasAfter
      simp only [withAvailable_parentQuotaID, withAvailable_totalMB, hcpar, hctot]
      show rowById (updateQuotas (updateQuotas db1.quotas pid
          (fun q => { q with allocatedMB := q.allocatedMB - req.allocateMB })) cid
          (fun q => { q with status := QuotaStatusDeleted, deletedAt := some () })) pid
        = _
      rw [rowById_updateQuotas _ pid cid
          (fun q => { q with status := QuotaStatusDeleted, deletedAt := some () })
          (fun q => rfl),
        rowById_updateQuotas _ pid pid
          (fun q => { q with allocatedMB := q.allocatedMB - req.allocateMB })
          (fun q => rfl), hq1]
      unfold allocQuotasAfter
      rw [rowById_updateQuotas _ pid pid
          (fun q => { q with allocatedMB := q.allocatedMB + req.allocateMB })
          (fun q => rfl),
        rowById_append, rowById_eq_of_mem hnd hrmem hrid]
      show ((((some r).map fun q =>
          if q.id == pid then { q with allocatedMB := q.allocatedMB + req.allocateMB }
          else q).map fun q =>
          if q.id == pid then { q with allocatedMB := q.allocatedMB - req.allocateMB }
          else q).map fun q =>
          if q.id == cid then { q with status := QuotaStatusDeleted, deletedAt := some () }
          else q) = _
      simp only [Option.map_some', h1, h2, Bool.false_eq_true, eq_self_iff_true,
        if_false, if_true]
    refine ⟨_, releaseQuota_ok_intro env u cid db1 _ hpermR hgetC hbusy, ?_, ?_⟩
    · rw [appendAudit_quotas]
      show (rowById (releaseQuotasAfter db1.quotas
          (withAvailable (allocChildQuota parentQuota pid req cid)) cid) pid).map
            Quota.allocatedMB
        = (rowById db.quotas pid).map Quota.allocatedMB
      rw [hrow, rowById_eq_of_mem hnd hrmem hrid, Option.map_some', Option.map_some']
      refine congrArg some ?_
      show r.allocatedMB + req.allocateMB - req.allocateMB = r.allocatedMB
      omega
    · rw [appendAudit_quotas]
      show (rowById (releaseQuotasAfter db1.quotas
          (withAvailable (allocChildQuota parentQuota pid req cid)) cid) pid).map
            (fun q => q.totalMB - q.usedMB - q.allocatedMB)
        = (rowById db.quotas pid).map (fun q => q.totalMB - q.usedMB - q.allocatedMB)
      rw [hrow, rowById_eq_of_mem hnd hrmem hrid, Option.map_some', Option.map_some']
      refine congrArg some ?_
      show r.totalMB - r.usedMB - (r.allocatedMB + req.allocateMB - req.allocateMB)
        = r.totalMB - r.usedMB - r.allocatedMB
      omega

/-- A 10 MB root-less node with 1 MB in use (busy for release). -/
def busyRow : Quota := { rootRow with id := "quota_b1", usedMB := 1, totalMB := 10 }

/-- A ledger holding only the busy node. -/
def dbBusy : DBState := { quotas := [busyRow], usage := [], auditLogs := [] }

/-- The child quota returned by the fixture allocation. -/
def childCreated : Quota :=
  match AllocateQuota envAll alice "quota_r" reqChild "quota_c" dbRoot with
  | .ok (_, c) => c
  | .error _ => rootRow

/-- The child row as the release lookup finds it in `dbRootChild`. -/
def childLookup : Quota :=
  match getQuotaForUpdateTx dbRootChild.quotas "quota_c" with
  | some q => q
  | none => rootRow

/-- Witness for C6 at concrete inputs: releasing a node with 1 MB in
use fails BusyResource; releasing the idle 2000 MB child of the 10000 MB
root commits, marks the child deleted, and returns the parent's
allocated and derived available to their pre-allocation values. -/
theorem release_semantics_witness :
    (ReleaseQuota envAll alice "quota_b1" dbBusy
      = .error (.busyResource (withAvailable busyRow).usedMB
          (withAvailable busyRow).allocatedMB)) ∧
    (∃ db' r, ReleaseQuota envAll alice "quota_c" dbRootChild = .ok db' ∧
      dbRootChild.quotas.find? (predNotDeleted "quota_c") = some r ∧
      rowById db'.quotas "quota_c"
        = some { r with status := QuotaStatusDeleted, deletedAt := some () } ∧
      (∀ pid, childLookup.parentQuotaID = some pid →
        rowById db'.quotas pid = (rowById dbRootChild.quotas pid).map
          (fun q => { q with allocatedMB := q.allocatedMB - childLookup.totalMB }))) ∧
    (∃ db2, ReleaseQuota envAll alice "quota_c" dbRootChild = .ok db2 ∧
      (rowById db2.quotas "quota_r").map Quota.allocatedMB
        = (rowById dbRoot.quotas "quota_r").map Quota.allocatedMB ∧
      (rowById db2.quotas "quota_r").map (fun q => q.totalMB - q.usedMB - q.allocatedMB)
        = (rowById dbRoot.quotas "quota_r").map
            (fun q => q.totalMB - q.usedMB - q.allocatedMB)) :=
  ⟨(release_semantics.1 envAll alice "quota_b1" dbBusy (withAvailable busyRow)
      rfl rfl).mpr (by decide),
   release_semantics.2.1 envAll alice "quota_c" dbRootChild childLookup
     (by decide) rfl rfl (by decide),
   release_semantics.2.2 envAll alice "quota_r" reqChild "quota_c" dbRoot dbRootChild
     childCreated (by decide) (by decide) rfl rfl⟩

/-! ## Claim C7 -/

/-- C7: a committed AllocateUsage increments only `used_mb`, and an
immediately following DeallocateUsage of the same amount commits and
returns `used_mb` to its pre-allocation value, with `total_mb` and
`allocated_mb` unchanged throughout; and DeallocateUsage fails with a
ValidationError, producing no successor state, whenever the requested
amount exceeds the node's current `used_mb`. -/
theorem usage_roundtrip :
    (∀ (env : Env) (u : UserInfo) (qid : String) (req : QuotaUsageRequest)
      (db db1 : DBState),
      LedgerInv db.quotas →
      0 < req.usageMB →
      AllocateUsage env u qid req db = .ok db1 →
      ∃ db2, DeallocateUsage env u qid req db1 = .ok db2 ∧
        (rowById db1.quotas qid).map Quota.usedMB
          = (rowById db.quotas qid).map (fun q => q.usedMB + req.usageMB) ∧
        (rowById db1.quotas qid).map Quota.totalMB
          = (rowById db.quotas qid).map Quota.totalMB ∧
        (rowById db1.quotas qid).map Quota.allocatedMB
          = (rowById db.quotas qid).map Quota.allocatedMB ∧
        (rowById db2.quotas qid).map Quota.usedMB
          = (rowById db.quotas qid).map Quota.usedMB ∧
        (rowById db2.quotas qid).map Quota.totalMB
          = (rowById db.quotas qid).map Quota.totalMB ∧
        (rowById db2.quotas qid).map Quota.allocatedMB
          = (rowById db.quotas qid).map Quota.allocatedMB) ∧
    (∀ (env : Env) (u : UserInfo) (qid : String) (req : QuotaUsageRequest)
      (db : DBState) (quota : Quota),
      env.checkPermission u qid [QuotaPermissionRead] = some true →
      getQuotaForUpdateTx db.quotas qid = some quota →
      quota.usedMB < req.usageMB →
      DeallocateUsage env u qid req db
        = .error (.validation "cannot deallocate more than is in use")) := by
  constructor
  · intro env u qid req db db1 hInv hpos hallocEq
    obtain ⟨hperm, hins, quota, hget, hle, hq1, husage, haudit⟩ :=
      allocateUsage_ok_elim hallocEq
    obtain ⟨r, hfind, hrmem, hrid, hrst, hq⟩ := getQuotaForUpdateTx_some_elim hget
    obtain ⟨hnd, href, hself, hcapQ, hsum⟩ := hInv
    obtain ⟨hc1, hc2, hc3⟩ := hcapQ r hrmem
    have hrq : (r.id == qid) = true := beq_iff_eq.mpr hrid
    have hnd1 : IdsNodup db1.quotas := by
      rw [hq1]
      unfold IdsNodup
      rw [updateQuotas_map_id db.quotas qid
          (fun q => { q with usedMB := q.usedMB + req.usageMB }) (fun q => rfl)]
      exact hnd
    have hmem1 : ({ r with usedMB := r.usedMB + req.usageMB } : Quota) ∈ db1.quotas := by
      rw [hq1]
      have := updateQuotas_mem_of_mem qid
        (fun q => { q with usedMB := q.usedMB + req.usageMB }) hrmem
      rw [if_pos hrid] at this
      exact this
    have hget1 : getQuotaForUpdateTx db1.quotas qid
        = some (withAvailable { r with usedMB := r.usedMB + req.usageMB }) :=
      getQuotaForUpdateTx_eq_some hnd1 hmem1 hrid hrst
    have hnotlow : ¬((withAvailable
        { r with usedMB := r.usedMB + req.usageMB }).usedMB < req.usageMB) := by
      show ¬(r.usedMB + req.usageMB < req.usageMB)
      omega
    have hrow1 : rowById db1.quotas qid
        = some { r with usedMB := r.usedMB + req.usageMB } := by
      rw [hq1, rowById_updateQuotas db.quotas qid qid
          (fun q => { q with usedMB := q.usedMB + req.usageMB }) (fun q => rfl),
        rowById_eq_of_mem hnd hrmem hrid]
      simp only [Option.map_some', hrq, eq_self_iff_true, if_true]
    refine ⟨_, deallocateUsage_ok_intro env u qid req db1 _ hperm hget1 hnotlow hins,
      ?_, ?_, ?_, ?_, ?_, ?_⟩
    all_goals rw [rowById_eq_of_mem hnd hrmem hrid]
    · rw [hrow1]; rfl
    · rw [hrow1]; rfl
    · rw [hrow1]; rfl
    · rw [appendAudit_quotas]
      show ((rowById (updateQuotas db1.quotas qid
        (fun q => { q with usedMB := q.usedMB - req.usageMB })) qid).map Quota.usedMB) = _
      rw [rowById_updateQuotas db1.quotas qid qid
          (fun q => { q with usedMB := q.usedMB - req.usageMB }) (fun q => rfl),
        hrow1]
      simp only [Option.map_some', hrq, eq_self_iff_true, if_true, Option.some.injEq]
      omega
    · rw [appendAudit_quotas]
      show ((rowById (updateQuotas db1.quotas qid
        (fun q => { q with usedMB := q.usedMB - req.usageMB })) qid).map Quota.totalMB) = _
      rw [rowById_updateQuotas db1.quotas qid qid
          (fun q => { q with usedMB := q.usedMB - req.usageMB }) (fun q => rfl),
        hrow1]
      simp only [Option.map_some', hrq, eq_self_iff_true, if_true]
    · rw [appendAudit_quotas]
      show ((rowById (updateQuotas db1.quotas qid
        (fun q => { q with usedMB := q.usedMB - req.usageMB })) qid).map
          Quota.allocatedMB) = _
      rw [rowById_updateQuotas db1.quotas qid qid
          (fun q => { q with usedMB := q.usedMB - req.usageMB }) (fun q => rfl),
        hrow1]
      simp only [Option.map_some', hrq, eq_self_iff_true, if_true]
  · intro env u qid req db quota hperm hget hlow
    simp only [DeallocateUsage, hperm, hget, hlow, if_true]

/-- The state after allocating 100 MB of usage on the root. -/
def dbUsed : DBState :=
  match AllocateUsage envAll alice "quota_r" reqUse dbRoot with
  | .ok d => d
  | .error _ => dbRoot

/-- Witness for C7 at concrete inputs: a 100 MB usage round trip on the
10000 MB root restores `used_mb`, leaving `total_mb` and `allocated_mb`
untouched; deallocating 100 MB from the fresh root (0 MB in use) fails
with the ValidationError. -/
theorem usage_roundtrip_witness :
    (∃ db2, DeallocateUsage envAll alice "quota_r" reqUse dbUsed = .ok db2 ∧
      (rowById dbUsed.quotas "quota_r").map Quota.usedMB
        = (rowById dbRoot.quotas "quota_r").map (fun q => q.usedMB + reqUse.usageMB) ∧
      (rowById dbUsed.quotas "quota_r").map Quota.totalMB
        = (rowById dbRoot.quotas "quota_r").map Quota.totalMB ∧
      (rowById dbUsed.quotas "quota_r").map Quota.allocatedMB
        = (rowById dbRoot.quotas "quota_r").map Quota.allocatedMB ∧
      (rowById db2.quotas "quota_r").map Quota.usedMB
        = (rowById dbRoot.quotas "quota_r").map Quota.usedMB ∧
      (rowById db2.quotas "quota_r").map Quota.totalMB
        = (rowById dbRoot.quotas "quota_r").map Quota.totalMB ∧
      (rowById db2.quotas "quota_r").map Quota.allocatedMB
        = (rowById dbRoot.quotas "quota_r").map Quota.allocatedMB) ∧
    (DeallocateUsage envAll alice "quota_r" reqUse dbRoot
      = .error (.validation "cannot deallocate more than is in use")) :=
  ⟨usage_roundtrip.1 envAll alice "quota_r" reqUse dbRoot dbUsed (by decide) (by decide)
     rfl,
   usage_roundtrip.2 envAll alice "quota_r" reqUse dbRoot (withAvailable rootRow)
     rfl rfl (by decide)⟩

/-! ## Claim C10 -/

/-- C10: every lookup filters on `status != 'deleted'` only.  NotFound
is returned iff no row with the id has a status other than deleted —
stated for the locked lookup and for GetNode; a row that exists (by
primary key) and is not deleted — in particular a suspended one — is
found with its derived headroom, exactly like an active one; and a
mutating operation treats a suspended node as if it were active:
AllocateUsage locks it and increments its `used_mb` normally, leaving
the status suspended. -/
theorem lookup_excludes_only_deleted :
    (∀ (Q : List Quota) (i : String),
      getQuotaForUpdateTx Q i = none ↔
        ∀ q ∈ Q, ¬(q.id = i ∧ q.status ≠ QuotaStatusDeleted)) ∧
    (∀ (env : Env) (u : UserInfo) (qid : String) (db : DBState),
      env.checkPermission u qid [QuotaPermissionRead] = some true →
      (GetQuota env u qid db = .error .notFound ↔
        ∀ q ∈ db.quotas, ¬(q.id = qid ∧ q.status ≠ QuotaStatusDeleted))) ∧
    (∀ (Q : List Quota) (i : String) (r : Quota),
      IdsNodup Q → r ∈ Q → r.id = i → r.status ≠ QuotaStatusDeleted →
      getQuotaForUpdateTx Q i = some (withAvailable r)) ∧
    (∀ (env : Env) (u : UserInfo) (qid : String) (req : QuotaUsageRequest)
      (db : DBState) (r : Quota),
      env.checkPermission u qid [QuotaPermissionRead] = some true →
      env.usageInsertOk = true →
      IdsNodup db.quotas → r ∈ db.quotas → r.id = qid →
      r.status = QuotaStatusSuspended →
      req.usageMB ≤ r.totalMB - r.usedMB - r.allocatedMB →
      ∃ db', AllocateUsage env u qid req db = .ok db' ∧
        rowById db'.quotas qid = some { r with usedMB := r.usedMB + req.usageMB }) := by
  refine ⟨fun Q i => getQuotaForUpdateTx_none_iff, ?_, ?_, ?_⟩
  · intro env u qid db hperm
    constructor
    · intro h
      cases hq : queryQuotaNotDeleted db.quotas qid with
      | some quota =>
        simp only [GetQuota, hperm, hq] at h
        exact Except.noConfusion h
      | none => exact getQuotaForUpdateTx_none_iff.mp hq
    · intro h
      have hq : queryQuotaNotDeleted db.quotas qid = none :=
        getQuotaForUpdateTx_none_iff.mpr h
      simp only [GetQuota, hperm, hq]
  · intro Q i r hnd hr hid hst
    exact getQuotaForUpdateTx_eq_some hnd hr hid hst
  · intro env u qid req db r hperm hins hnd hr hid hst hle
    have hstd : r.status ≠ QuotaStatusDeleted := by
      rw [hst]
      decide
    have hget : getQuotaForUpdateTx db.quotas qid = some (withAvailable r) :=
      getQuotaForUpdateTx_eq_some hnd hr hid hstd
    have hcapn : ¬((withAvailable r).totalMB - (withAvailable r).usedMB
        - (withAvailable r).allocatedMB < req.usageMB) := by
      show ¬(r.totalMB - r.usedMB - r.allocatedMB < req.usageMB)
      omega
    refine ⟨_, allocateUsage_ok_intro env u qid req db _ hperm hget hcapn hins, ?_⟩
    rw [appendAudit_quotas]
    show rowById (updateQuotas db.quotas qid
      (fun q => { q with usedMB := q.usedMB + req.usageMB })) qid = _
    rw [rowById_updateQuotas db.quotas qid qid
        (fun q => { q with usedMB := q.usedMB + req.usageMB }) (fun q => rfl),
      rowById_eq_of_mem hnd hr hid]
    simp only [Option.map_some', beq_iff_eq.mpr hid, eq_self_iff_true, if_true]

/-- A suspended 10000 MB root with id `quota_s`. -/
def suspRow : Quota := { rootRow with id := "quota_s", status := QuotaStatusSuspended }

/-- A ledger holding only the suspended node. -/
def dbSusp : DBState := { quotas := [suspRow], usage := [], auditLogs := [] }

/-- Witness for C10 at concrete inputs: the suspended node is invisible
to neither lookup, GetNode reports NotFound exactly for ids with no
non-deleted row, and AllocateUsage mutates the suspended node exactly
like an active one. -/
theorem lookup_excludes_only_deleted_witness :
    (getQuotaForUpdateTx dbSusp.quotas "quota_s" = none ↔
      ∀ q ∈ dbSusp.quotas, ¬(q.id = "quota_s" ∧ q.status ≠ QuotaStatusDeleted)) ∧
    (GetQuota envAll alice "quota_missing" dbSusp = .error .notFound ↔
      ∀ q ∈ dbSusp.quotas, ¬(q.id = "quota_missing" ∧ q.status ≠ QuotaStatusDeleted)) ∧
    getQuotaForUpdateTx dbSusp.quotas "quota_s" = some (withAvailable suspRow) ∧
    (∃ db', AllocateUsage envAll alice "quota_s" reqUse dbSusp = .ok db' ∧
      rowById db'.quotas "quota_s"
        = some { suspRow with usedMB := suspRow.usedMB + reqUse.usageMB }) :=
  ⟨lookup_excludes_only_deleted.1 dbSusp.quotas "quota_s",
   lookup_excludes_only_deleted.2.1 envAll alice "quota_missing" dbSusp rfl,
   lookup_excludes_only_deleted.2.2.1 dbSusp.quotas "quota_s" suspRow (by decide)
     (by decide) rfl (by decide),
   lookup_excludes_only_deleted.2.2.2 envAll alice "quota_s" reqUse dbSusp suspRow
     rfl rfl (by decide) (by decide) rfl rfl (by decide)⟩

end CagenQuota
